import Mathlib

/-!
Verification development for the smokey terminal typing trainer.

The development shallowly embeds the two core subsystems of the program:

* test text generation (src/langs.rs): word extraction from a line source,
  punctuation/capitalization decoration and line layout (prep_test);
* the per-keystroke input state machine (src/testkeys.rs): test_key_handle
  together with the TestState helpers it uses.

Randomness is externalized: the punctuation draws, the sampled indices and
the raw sampler stream are explicit parameters, so every function is a pure
function of its inputs.  Rust strings are modelled as lists of characters
(the program treats them as sequences of scalar values).  Machine integers
(usize, u8, u16) are modelled as Nat; where the source could panic on
underflow or out-of-bounds indexing the embedding either bubbles an Option
or is totalized with a default, with a comment at the definition; such
states are unreachable from a well-formed initial state, which the
invariant theorems make precise.

The TestState helper methods (get_next_char, set_next_char, fetch, change,
restart_test) and the Randorst sampler live in source files that are not
part of the provided sources (src/application.rs, src/utils/randorst.rs);
they are modelled from the spec, marked by doc comments.
-/

/-- Style tag attached to a span.  The program uses theme colors
(theme.todo, theme.done, theme.wrong); only their identity matters. -/
inductive Style where
  | todo : Style
  | done : Style
  | wrong : Style
deriving DecidableEq, Repr

/-- A renderable/editable unit of test text: tui Span with its content
modelled as a list of characters plus a style tag. -/
structure Span where
  content : List Char
  style : Style
deriving DecidableEq, Repr

/-- The punctuation variants of src/langs.rs. -/
inductive Punctuation where
  | Normal (c : Char) : Punctuation
  | End (c : Char) : Punctuation
  | Paired (a z : Char) : Punctuation
  | DashLike (c : Char) : Punctuation
  | Null : Punctuation
deriving DecidableEq, Repr

/-- The weighted punctuation table of PFreq::default in src/langs.rs;
a draw picks one variant according to these relative weights.  The draws
themselves are externalized as explicit inputs, so the table is recorded
only as data. -/
def pfreqTable : List (Punctuation × Nat) :=
  [ (Punctuation.End '.', 65), (Punctuation.End '?', 6), (Punctuation.End '!', 3),
    (Punctuation.Normal ',', 61), (Punctuation.Normal ';', 3), (Punctuation.Normal ':', 3),
    (Punctuation.Paired '<' '>', 2), (Punctuation.Paired '(' ')', 3),
    (Punctuation.Paired '{' '}', 2), (Punctuation.Paired '[' ']', 2),
    (Punctuation.Paired '"' '"', 13), (Punctuation.Paired '\'' '\'', 10),
    (Punctuation.DashLike '-', 10), (Punctuation.Null, 800) ]

/-- add_space_with_blank of src/langs.rs: append the empty mistake-overflow
slot styled wrong and the single-space separator styled todo. -/
def add_space_with_blank (container : List Span) (wrong todo : Style) : List Span :=
  container ++ [Span.mk [] wrong, Span.mk [' '] todo]

/-- Rendering of one word inside the false-branch loop of prep_test:
optional opening glyph, the word (first character uppercased when the
capitalize flag is on), optional closing glyph.  Rust to_uppercase yields
an iterator of characters; the embedding uses the single-character
Char.toUpper, which agrees on ASCII input.  On an empty word with the
capitalize flag on the source panics (expect); the embedding renders
nothing, and theorems about capitalization assume nonempty words. -/
def renderWord (tmp : List Span) (word : List Char) (beginC endC : Option Char)
    (cap : Bool) (todo : Style) : List Span :=
  let tmp1 := match beginC with
    | some c => tmp ++ [Span.mk [c] todo]
    | none => tmp
  let body := if cap then
      match word with
      | [] => []
      | c :: rest => c.toUpper :: rest
    else word
  let tmp2 := tmp1 ++ body.map (fun c => Span.mk [c] todo)
  match endC with
  | some c => tmp2 ++ [Span.mk [c] todo]
  | none => tmp2

/-- The accumulator of the prep_test loop: closed lines, the line being
built (tmp always holds exactly one open line in the source), the running
character count, and the pending capitalize flag. -/
structure PrepState where
  test : List (List Span)
  tmp0 : List Span
  count : Nat
  capitalize : Bool
deriving DecidableEq, Repr

/-- One iteration of the false-branch word loop of prep_test: overflow
check on the running count, punctuation match deciding the begin/end
glyphs and the capitalize flag, rendering of the word, and the trailing
blank/space pair. -/
def prepStep (limit : Nat) (wrong todo : Style) (s : PrepState)
    (wp : List Char × Punctuation) : PrepState :=
  let word := wp.1
  let count1 := s.count + word.length + 1
  let closed := decide (count1 > limit)
  let test := if closed then s.test ++ [s.tmp0] else s.test
  let tmp0 := if closed then ([] : List Span) else s.tmp0
  let count := if closed then word.length else count1
  let bec : Option Char × Option Char × Bool :=
    match wp.2 with
    | Punctuation.Null => (none, none, s.capitalize)
    | Punctuation.End c => (none, some c, true)
    | Punctuation.Normal c => (none, some c, s.capitalize)
    | Punctuation.Paired a z => (some a, some z, s.capitalize)
    | Punctuation.DashLike _ => (none, none, s.capitalize)
  let tmp1 := add_space_with_blank (renderWord tmp0 word bec.1 bec.2.1 bec.2.2 todo) wrong todo
  PrepState.mk test tmp1 count false

/-- The full word loop of prep_test (false branch of the flag match). -/
def prepLoop (limit : Nat) (wrong todo : Style)
    (l : List (List Char × Punctuation)) (s : PrepState) : PrepState :=
  l.foldl (prepStep limit wrong todo) s

/-- Vec::swap on the outer line list (both indices are in bounds at the
call site in prep_test). -/
def listSwap (l : List (List Span)) (i j : Nat) : List (List Span) :=
  (l.set i (l.getD j [])).set j (l.getD i [])

/-- prep_test of src/langs.rs, randomness externalized: words stands for
the shuffled word list and draws for the successive results of
PFreq::choose (paired positionally with the words).  After the loop the
last two spans of the open line are popped and the outer list is swapped
so the short, separator-free line comes first. -/
def prep_test (words : List (List Char)) (draws : List Punctuation)
    (limit : Nat) (wrong todo : Style) : List (List Span) :=
  let s := prepLoop limit wrong todo (words.zip draws) (PrepState.mk [] [] 0 false)
  let tmpPop := s.tmp0.dropLast.dropLast
  let all := s.test ++ [tmpPop]
  listSwap all 0 (all.length - 1)

/-- Visible width of a line: the sum of the character counts of its
spans (an empty overflow slot contributes nothing, the separator space
contributes one). -/
def lineWidth (l : List Span) : Nat :=
  (l.map (fun sp => sp.content.length)).sum

/-- The loop of get_shuffled_words in src/langs.rs, after the first
index has been consumed.  The line source is the list lines with an
explicit cursor (the number of lines already taken from the iterator);
iterator nth k consumes k plus one lines.  last is the previously
emitted index, cached the container position of the word last read
fresh.  A failed unwrap (iterator exhausted) is none.  The source
indexes container with cached, which is always in bounds at the call
site; the embedding uses getD. -/
def extractGo (lines : List (List Char)) :
    List Nat → Nat → Nat → List (List Char) → Nat → Option (List (List Char) × Nat)
  | [], _, _, container, cursor => some (container, cursor)
  | val :: rest, last, cached, container, cursor =>
    if val = last then
      extractGo lines rest last cached (container ++ [container.getD cached []]) cursor
    else
      match lines.get? (cursor + (val - last - 1)) with
      | none => none
      | some w => extractGo lines rest val container.length (container ++ [w]) (cursor + (val - last))

/-- The streaming extraction of get_shuffled_words in src/langs.rs: the
file is the list lines, the sorted sampled indices are idxs (the output
of the Randorst prng), and the final in-memory FastRng shuffle is
externalized (the claims concern the extraction).  Returns the words in
sampled order together with the number of lines consumed from the
source.  An empty index sequence makes the source panic on
prng.next().unwrap(); modelled none. -/
def extract_words (lines : List (List Char)) (idxs : List Nat) :
    Option (List (List Char) × Nat) :=
  match idxs with
  | [] => none
  | i0 :: rest =>
    match lines.get? i0 with
    | none => none
    | some w => extractGo lines rest i0 0 [w] (i0 + 1)

/-- Modelled from the spec: the Randorst bounded line sampler
(src/utils/randorst.rs is not among the provided sources).  Per spec
section 4.1, sample count bound draws count indices uniformly in the
range zero to bound exclusive and emits them sorted ascending with
duplicates permitted.  The raw random stream is the explicit argument;
each draw is reduced into range by mod. -/
def randorst_sample (raw : Nat → Nat) (count bound : Nat) : List Nat :=
  ((List.range count).map (fun i => raw i % bound)).insertionSort (· ≤ ·)

/-- The test modifier enum of src/settings.rs. -/
inductive TestMod where
  | Punctuation : TestMod
  | Numbers : TestMod
  | Symbols : TestMod
deriving DecidableEq, Repr

/-- TestMod::from_bitflag of src/settings.rs; the catch-all arm runs the
unreachable macro, which panics: modelled as none. -/
def TestMod.from_bitflag : Nat → Option TestMod
  | 1 => some TestMod.Punctuation
  | 2 => some TestMod.Numbers
  | 4 => some TestMod.Symbols
  | _ => none

/-- The HashSet of test modifiers, modelled by membership flags. -/
structure TestModSet where
  punctuation : Bool
  numbers : Bool
  symbols : Bool
deriving DecidableEq, Repr

/-- HashSet::insert restricted to the three modifiers. -/
def TestModSet.insert (s : TestModSet) : TestMod → TestModSet
  | TestMod.Punctuation => TestModSet.mk true s.numbers s.symbols
  | TestMod.Numbers => TestModSet.mk s.punctuation true s.symbols
  | TestMod.Symbols => TestModSet.mk s.punctuation s.numbers true

/-- decode_test_mod_bitflags of src/settings.rs: for each bit position
zero to seven, when the bit is set insert from_bitflag of two to that
power; a panic inside from_bitflag aborts the whole call (none). -/
def decode_test_mod_bitflags (bitflag : Nat) : Option TestModSet :=
  (List.range 8).foldlM
    (fun s i =>
      if bitflag >>> i &&& 1 = 1 then (TestMod.from_bitflag (2 ^ i)).map s.insert
      else some s)
    (TestModSet.mk false false false)


/-- Keystroke codes consumed by test_key_handle (crossterm KeyCode;
other stands for every code the handler ignores). -/
inductive KeyCode where
  | char (c : Char) : KeyCode
  | backspace : KeyCode
  | tab : KeyCode
  | esc : KeyCode
  | other : KeyCode
deriving DecidableEq, Repr

/-- A key event: the code plus whether the modifier set is exactly
CONTROL (the only modifier test_key_handle inspects). -/
structure KeyEvent where
  code : KeyCode
  ctrl : Bool
deriving DecidableEq, Repr

/-- The live typing session, TestState of src/application.rs (a file not
among the provided sources) restricted to the fields testkeys.rs uses,
with the App cursor and quit flag folded in.  The line buffer is
flattened into the single span list text.  The cursor is an Int so that
the u16 cursor arithmetic of the source never truncates in the model;
no claim depends on the cursor. -/
structure TestState where
  text : List Span
  done : Nat
  current_char : Char
  correct : Nat
  mistakes : Nat
  blanks : Nat
  test_length : Nat
  cursor_x : Int
  should_quit : Bool
deriving DecidableEq, Repr

/-- Indexing into a span list: Rust indexing panics out of bounds; the
default span is returned instead, which is unreachable from well-formed
states (made precise by the reachability invariant). -/
def spanAt (t : List Span) (i : Nat) : Span :=
  t.getD i (Span.mk [] Style.todo)

/-- In-place style update of one span (no-op out of bounds, matching
comment at spanAt). -/
def setStyle (t : List Span) (i : Nat) (st : Style) : List Span :=
  t.set i (Span.mk (spanAt t i).content st)

/-- In-place content update of one span: TestState::change of the
missing src/application.rs; modelled from the spec as replacing the
placeholder content. -/
def setContent (t : List Span) (i : Nat) (c : List Char) : List Span :=
  t.set i (Span.mk c (spanAt t i).style)

/-- Modelled from the spec: TestState::fetch of the missing
src/application.rs returns the content of the span at the index. -/
def fetch (st : TestState) (i : Nat) : List Char :=
  (spanAt st.text i).content

/-- Modelled from the spec: TestState::get_next_char of the missing
src/application.rs returns the first character of the span at the
cursor index done, none when that span is an empty placeholder. -/
def get_next_char (st : TestState) : Option Char :=
  (spanAt st.text st.done).content.head?

/-- Modelled from the spec: TestState::set_next_char of the missing
src/application.rs sets current_char to the first character of the span
at done.  On an empty or out-of-range span the source would panic; the
model keeps a space, a state unreachable from well-formed states. -/
def set_next_char (st : TestState) : TestState :=
  { st with current_char := (spanAt st.text st.done).content.headD ' ' }

/-- Modelled from the spec: construction of the TestState for a buffer
(restart_test installs a freshly generated buffer and resets every
counter; the model machine is parameterized by that buffer).  The
target test_length is the total span count, the count at which
completion triggers. -/
def initState (B : List Span) : TestState :=
  { text := B, done := 0,
    current_char := (spanAt B 0).content.headD ' ',
    correct := 0, mistakes := 0, blanks := 0,
    test_length := B.length, cursor_x := 0, should_quit := false }

/-- set_next_char_beware_blanks of src/testkeys.rs: advance over an
empty placeholder, counting it as done and blank. -/
def set_next_char_beware_blanks (st : TestState) : TestState :=
  match get_next_char st with
  | some c => { st with current_char := c }
  | none => set_next_char { st with done := st.done + 1, blanks := st.blanks + 1 }

/-- set_next_char_or_end of src/testkeys.rs: advance the expected
character, or restart the test when the target length is reached (the
wpm logging is dropped; restart_test is modelled as installing the
machine buffer B afresh). -/
def set_next_char_or_end (B : List Span) (st : TestState) : TestState :=
  if st.done < st.test_length then set_next_char_beware_blanks st
  else initState B

/-- The body of the while loop in the CONTROL branch of
test_key_handle, recursing on the value of done (the loop decrements
done each iteration and stops at zero): while done is nonzero and the
span before done is not the single space, retreat the cursor and done
and reset the passed span to todo.  The first argument equals st.done
at every call. -/
def ctrlWhile : Nat → TestState → TestState
  | 0, st => st
  | d + 1, st =>
    if (spanAt st.text d).content ≠ [' '] then
      ctrlWhile d { st with cursor_x := st.cursor_x - 1, done := d, text := setStyle st.text d Style.todo }
    else st

/-- test_key_handle of src/testkeys.rs for one key event.  B is the
buffer a restart installs.  The CONTROL branch runs first regardless of
the code, exactly as in the source.  Underflowing usize subtractions in
the source panic; they are modelled by truncated Nat subtraction and
are unreachable from well-formed states. -/
def test_key_handle (B : List Span) (key : KeyEvent) (st : TestState) : TestState :=
  match key.ctrl with
  | true =>
    if st.done = 0 then st
    else
      let st1 :=
        if st.current_char = ' ' then
          let prevLen := (fetch st (st.done - 1)).length
          let t1 := setContent st.text (st.done - 1) []
          let d2 := st.done - 2
          let t2 := setStyle t1 d2 Style.todo
          { st with
            cursor_x := st.cursor_x - (prevLen + 1), text := t2,
            done := d2, blanks := st.blanks - 1 }
        else if fetch st (st.done - 1) = [' '] then
          let t1 := setStyle st.text (st.done - 1) Style.todo
          let prevLen := (fetch st (st.done - 2)).length
          let t2 := setContent t1 (st.done - 2) []
          let d3 := st.done - 3
          let t3 := setStyle t2 d3 Style.todo
          { st with
            cursor_x := st.cursor_x - (prevLen + 2), text := t3,
            done := d3, blanks := st.blanks - 1 }
        else st
      set_next_char (ctrlWhile st1.done st1)
  | false =>
    match key.code with
    | KeyCode.char c =>
      let st0 := { st with cursor_x := st.cursor_x + 1 }
      if c = st0.current_char then
        let st1 := { st0 with
          correct := st0.correct + 1,
          text := setStyle st0.text st0.done Style.done }
        set_next_char_or_end B { st1 with done := st1.done + 1 }
      else
        let st1 := { st0 with mistakes := st0.mistakes + 1 }
        if st1.current_char = ' ' then
          if (fetch st1 (st1.done - 1)).length < 8 then
            { st1 with
              text := setContent st1.text (st1.done - 1) ((fetch st1 (st1.done - 1)) ++ [c]) }
          else
            { st1 with cursor_x := st1.cursor_x - 1 }
        else
          let st2 := { st1 with text := setStyle st1.text st1.done Style.wrong }
          set_next_char_or_end B { st2 with done := st2.done + 1 }
    | KeyCode.backspace =>
      if 0 < st.done then
        let st0 := { st with cursor_x := st.cursor_x - 1 }
        if st0.current_char = ' ' then
          if (spanAt st0.text (st0.done - 1)).content = [] then
            let st1 := set_next_char { st0 with done := st0.done - 2, blanks := st0.blanks - 1 }
            { st1 with text := setStyle st1.text st1.done Style.todo }
          else
            { st0 with
              text := setContent st0.text (st0.done - 1) ((spanAt st0.text (st0.done - 1)).content.dropLast) }
        else
          let st1 := set_next_char { st0 with done := st0.done - 1 }
          { st1 with text := setStyle st1.text st1.done Style.todo }
      else st
    | KeyCode.tab => initState B
    | KeyCode.esc => { st with should_quit := true }
    | KeyCode.other => st

/-- Folding a keystroke sequence through the handler. -/
def applyKeys (B : List Span) (keys : List KeyEvent) (st : TestState) : TestState :=
  keys.foldl (fun s k => test_key_handle B k s) st

/-- Structural kind of a buffer position: an ordinary one-character
glyph, the empty mistake-overflow slot, or the single-space separator.
The kinds of the spans never change during a test; only styles and
overflow contents do. -/
inductive SKind where
  | glyph : SKind
  | blank : SKind
  | space : SKind
deriving DecidableEq, Repr

/-- Kind of position i (out-of-range positions read glyph; they are
never consulted in bounds-checked contexts). -/
def kindAt (K : List SKind) (i : Nat) : SKind :=
  K.getD i SKind.glyph

/-- Compatibility of a span with its structural kind: a glyph holds one
non-space character, an overflow slot holds at most eight non-space
characters, a separator holds exactly one space. -/
def spanFits : SKind → Span → Prop
  | SKind.glyph, sp => sp.content.length = 1 ∧ sp.content ≠ [' ']
  | SKind.blank, sp => sp.content.length ≤ 8 ∧ ' ' ∉ sp.content
  | SKind.space, sp => sp.content = [' ']

instance (k : SKind) (sp : Span) : Decidable (spanFits k sp) :=
  match k with
  | SKind.glyph => inferInstanceAs (Decidable (sp.content.length = 1 ∧ sp.content ≠ [' ']))
  | SKind.blank => inferInstanceAs (Decidable (sp.content.length ≤ 8 ∧ ' ' ∉ sp.content))
  | SKind.space => inferInstanceAs (Decidable (sp.content = [' ']))

/-- The shape of a well-formed buffer, stated by local rules: the
buffer starts and ends with a glyph, every overflow slot is preceded by
a glyph and followed by the separator space, and every separator is
preceded by an overflow slot.  Buffers produced by prep_test have this
shape: each word is a run of glyphs followed by the slot/space pair and
the final pair is popped. -/
@[reducible] def shapeOK (K : List SKind) : Prop :=
  K ≠ [] ∧ kindAt K 0 = SKind.glyph ∧ kindAt K (K.length - 1) = SKind.glyph ∧
  (∀ i, i < K.length → kindAt K i = SKind.blank →
    0 < i ∧ kindAt K (i - 1) = SKind.glyph ∧ i + 1 < K.length ∧ kindAt K (i + 1) = SKind.space) ∧
  (∀ i, i < K.length → kindAt K i = SKind.space →
    0 < i ∧ kindAt K (i - 1) = SKind.blank)

/-- Number of indices below n satisfying f. -/
def idxCount (f : Nat → Bool) : Nat → Nat
  | 0 => 0
  | n + 1 => idxCount f n + (if f n then 1 else 0)

/-- Number of spans of a given style. -/
def countStyled (t : List Span) (s : Style) : Nat :=
  t.countP (fun sp => decide (sp.style = s))

/-- Core reachability invariant of the input state machine, relative to
the fixed kind map K of the buffer: lengths agree, the cursor is in
range, every span is compatible with its kind, spans at or past done
are unstyled (slots excepted), non-slot spans below done are styled,
overflow slots always keep the wrong color they are created with (the
machine never restyles a slot), the blanks counter counts the slots
below done, and slots at or past done are empty. -/
@[reducible] def InvCore (K : List SKind) (st : TestState) : Prop :=
  st.text.length = K.length ∧
  st.test_length = K.length ∧
  st.done < K.length ∧
  (∀ i, i < K.length → spanFits (kindAt K i) (spanAt st.text i)) ∧
  (∀ i, i < K.length → st.done ≤ i → kindAt K i ≠ SKind.blank →
    (spanAt st.text i).style = Style.todo) ∧
  (∀ i, i < st.done → kindAt K i ≠ SKind.blank → (spanAt st.text i).style ≠ Style.todo) ∧
  (∀ i, i < K.length → kindAt K i = SKind.blank → (spanAt st.text i).style = Style.wrong) ∧
  st.blanks = idxCount (fun i => kindAt K i == SKind.blank) st.done ∧
  (∀ i, i < K.length → st.done ≤ i → kindAt K i = SKind.blank → (spanAt st.text i).content = [])

/-- Full reachability invariant: the core plus agreement of
current_char with the head of the span at done. -/
@[reducible] def ReachInv (K : List SKind) (st : TestState) : Prop :=
  InvCore K st ∧ (spanAt st.text st.done).content.head? = some st.current_char

/-- Well-formedness of an initial buffer with respect to a kind map:
lengths agree, the shape holds, spans fit their kinds, glyphs and
separators start unstyled (the todo color), every overflow slot starts
empty and carries the wrong color, exactly as add_space_with_blank
creates it in prep_test. -/
@[reducible] def InitOK (B : List Span) (K : List SKind) : Prop :=
  B.length = K.length ∧ shapeOK K ∧
  (∀ i, i < K.length → spanFits (kindAt K i) (spanAt B i)) ∧
  (∀ i, i < K.length → kindAt K i ≠ SKind.blank → (spanAt B i).style = Style.todo) ∧
  (∀ i, i < K.length → kindAt K i = SKind.blank → (spanAt B i).style = Style.wrong) ∧
  (∀ i, i < K.length → kindAt K i = SKind.blank → (spanAt B i).content = [])

theorem spanAt_set_self (t : List Span) (i : Nat) (sp : Span) (h : i < t.length) :
    spanAt (t.set i sp) i = sp := by
  simp [spanAt, List.getD, List.getElem?_set_self', List.getElem?_eq_getElem h]

theorem spanAt_set_ne (t : List Span) (i j : Nat) (sp : Span) (h : i ≠ j) :
    spanAt (t.set i sp) j = spanAt t j := by
  simp [spanAt, List.getD, List.getElem?_set_ne h]

theorem length_setStyle (t : List Span) (i : Nat) (s : Style) :
    (setStyle t i s).length = t.length := by
  simp [setStyle]

theorem length_setContent (t : List Span) (i : Nat) (c : List Char) :
    (setContent t i c).length = t.length := by
  simp [setContent]

theorem spanAt_setStyle_self (t : List Span) (i : Nat) (s : Style) (h : i < t.length) :
    spanAt (setStyle t i s) i = Span.mk (spanAt t i).content s := by
  simp [setStyle, spanAt_set_self _ _ _ h]

theorem spanAt_setStyle_ne (t : List Span) (i j : Nat) (s : Style) (h : i ≠ j) :
    spanAt (setStyle t i s) j = spanAt t j := by
  simp [setStyle, spanAt_set_ne _ _ _ _ h]

theorem content_setStyle (t : List Span) (i j : Nat) (s : Style) :
    (spanAt (setStyle t i s) j).content = (spanAt t j).content := by
  rcases eq_or_ne i j with rfl | h
  · by_cases hl : i < t.length
    · simp [spanAt_setStyle_self _ _ _ hl]
    · simp [setStyle, spanAt, List.set_eq_of_length_le (Nat.le_of_not_lt hl)]
  · simp [spanAt_setStyle_ne _ _ _ _ h]

theorem spanAt_setContent_self (t : List Span) (i : Nat) (c : List Char) (h : i < t.length) :
    spanAt (setContent t i c) i = Span.mk c (spanAt t i).style := by
  simp [setContent, spanAt_set_self _ _ _ h]

theorem spanAt_setContent_ne (t : List Span) (i j : Nat) (c : List Char) (h : i ≠ j) :
    spanAt (setContent t i c) j = spanAt t j := by
  simp [setContent, spanAt_set_ne _ _ _ _ h]

theorem style_setContent (t : List Span) (i j : Nat) (c : List Char) :
    (spanAt (setContent t i c) j).style = (spanAt t j).style := by
  rcases eq_or_ne i j with rfl | h
  · by_cases hl : i < t.length
    · simp [spanAt_setContent_self _ _ _ hl]
    · simp [setContent, spanAt, List.set_eq_of_length_le (Nat.le_of_not_lt hl)]
  · simp [spanAt_setContent_ne _ _ _ _ h]

theorem set_spanAt_self (t : List Span) (i : Nat) (h : i < t.length) :
    t.set i (spanAt t i) = t := by
  apply List.ext_getElem
  · simp
  · intro n h1 h2
    rcases eq_or_ne i n with rfl | hne
    · simp [spanAt, List.getD, List.getElem?_eq_getElem h]
    · rw [List.getElem_set_ne hne]

theorem idxCount_succ (f : Nat → Bool) (n : Nat) :
    idxCount f (n + 1) = idxCount f n + (if f n then 1 else 0) := rfl

theorem idxCount_congr (f g : Nat → Bool) (n : Nat)
    (h : ∀ i, i < n → f i = g i) : idxCount f n = idxCount g n := by
  induction n with
  | zero => rfl
  | succ m ih =>
    rw [idxCount_succ, idxCount_succ, ih (fun i hi => h i (Nat.lt_succ_of_lt hi)),
      h m (Nat.lt_succ_self m)]

theorem idxCount_eq_of_false_above (f : Nat → Bool) (a b : Nat) (hab : a ≤ b)
    (h : ∀ i, a ≤ i → i < b → f i = false) : idxCount f b = idxCount f a := by
  induction b with
  | zero => cases Nat.le_zero.mp hab; rfl
  | succ m ih =>
    rcases Nat.lt_or_ge a (m + 1) with hlt | hge
    · have ha : a ≤ m := Nat.lt_succ_iff.mp hlt
      rw [idxCount_succ, h m ha (Nat.lt_succ_self m),
        ih ha (fun i hi1 hi2 => h i hi1 (Nat.lt_succ_of_lt hi2))]
      simp
    · have : a = m + 1 := Nat.le_antisymm hab hge
      rw [this]

theorem idxCount_add_compl (f : Nat → Bool) (n : Nat) :
    idxCount f n + idxCount (fun i => !(f i)) n = n := by
  induction n with
  | zero => rfl
  | succ m ih =>
    rw [idxCount_succ, idxCount_succ]
    cases hf : f m <;> simp [hf] <;> omega

theorem countP_eq_idxCount (t : List Span) (p : Span → Bool) :
    t.countP p = idxCount (fun i => p (spanAt t i)) t.length := by
  induction t with
  | nil => rfl
  | cons a l ih =>
    rw [List.countP_cons, List.length_cons]
    have hshift : ∀ (f : Nat → Bool) (m : Nat),
        idxCount f (m + 1) = (if f 0 then 1 else 0) + idxCount (fun i => f (i + 1)) m := by
      intro f m
      induction m with
      | zero => simp [idxCount]
      | succ k ihk => rw [idxCount_succ, ihk, idxCount_succ]; omega
    rw [hshift]
    have h0 : spanAt (a :: l) 0 = a := rfl
    have hs : ∀ i, spanAt (a :: l) (i + 1) = spanAt l i := by
      intro i; rfl
    simp only [h0, hs]
    omega

theorem countP_disjoint_add (t : List Span) (p q : Span → Bool)
    (h : ∀ sp, ¬(p sp = true ∧ q sp = true)) :
    t.countP p + t.countP q = t.countP (fun sp => p sp || q sp) := by
  induction t with
  | nil => rfl
  | cons a l ih =>
    rw [List.countP_cons, List.countP_cons, List.countP_cons]
    cases hp : p a <;> cases hq : q a <;> simp [hp, hq] <;> try omega
    exact absurd ⟨hp, hq⟩ (h a)

theorem shape_blank_struct (K : List SKind) (hs : shapeOK K) (i : Nat)
    (hi : i < K.length) (h : kindAt K i = SKind.blank) :
    1 ≤ i ∧ kindAt K (i - 1) = SKind.glyph ∧ i + 1 < K.length ∧
      kindAt K (i + 1) = SKind.space := by
  obtain ⟨-, -, -, hb, -⟩ := hs
  obtain ⟨h1, h2, h3, h4⟩ := hb i hi h
  exact ⟨h1, h2, h3, h4⟩

theorem shape_space_struct (K : List SKind) (hs : shapeOK K) (i : Nat)
    (hi : i < K.length) (h : kindAt K i = SKind.space) :
    2 ≤ i ∧ kindAt K (i - 1) = SKind.blank ∧ kindAt K (i - 2) = SKind.glyph := by
  obtain ⟨-, -, -, hb, hsp⟩ := hs
  obtain ⟨h1, h2⟩ := hsp i hi h
  obtain ⟨h3, h4, -, -⟩ := hb (i - 1) (Nat.lt_of_lt_of_le (Nat.sub_lt h1 Nat.one_pos) (Nat.le_of_lt hi)) h2
  have : i - 1 - 1 = i - 2 := by omega
  rw [this] at h4
  exact ⟨by omega, h2, h4⟩

theorem shape_space_not_last (K : List SKind) (hs : shapeOK K) (i : Nat)
    (hi : i < K.length) (h : kindAt K i = SKind.space) : i + 1 < K.length := by
  obtain ⟨hne, -, hlast, -, -⟩ := hs
  rcases Nat.lt_or_ge (i + 1) K.length with hlt | hge
  · exact hlt
  · exfalso
    have : i = K.length - 1 := by
      have := List.length_pos.mpr hne
      omega
    rw [this, hlast] at h
    exact SKind.noConfusion h

theorem shape_space_next (K : List SKind) (hs : shapeOK K) (i : Nat)
    (hi : i < K.length) (h : kindAt K i = SKind.space) :
    kindAt K (i + 1) = SKind.glyph := by
  have h1 : i + 1 < K.length := shape_space_not_last K hs i hi h
  rcases hk : kindAt K (i + 1) with _ | _ | _
  · rfl
  · obtain ⟨-, hg, -, -⟩ := shape_blank_struct K hs (i + 1) h1 hk
    rw [Nat.add_sub_cancel] at hg
    rw [h] at hg
    exact SKind.noConfusion hg
  · obtain ⟨-, -, -, -, hsp⟩ := hs
    obtain ⟨-, hb⟩ := hsp (i + 1) h1 hk
    rw [Nat.add_sub_cancel, h] at hb
    exact SKind.noConfusion hb

theorem fits_glyph_elim (sp : Span) (h : spanFits SKind.glyph sp) :
    ∃ c, sp.content = [c] ∧ c ≠ ' ' := by
  obtain ⟨h1, h2⟩ := h
  obtain ⟨c, hc⟩ := List.length_eq_one.mp h1
  refine ⟨c, hc, fun hsp => h2 ?_⟩
  rw [hc, hsp]

theorem shape_glyph_next (K : List SKind) (hs : shapeOK K) (i : Nat)
    (hi : i + 1 < K.length) (h : kindAt K i = SKind.glyph) :
    kindAt K (i + 1) = SKind.glyph ∨ kindAt K (i + 1) = SKind.blank := by
  rcases hk : kindAt K (i + 1) with _ | _ | _
  · exact Or.inl rfl
  · exact Or.inr rfl
  · obtain ⟨-, -, -, -, hsp⟩ := hs
    obtain ⟨-, hb⟩ := hsp (i + 1) hi hk
    rw [Nat.add_sub_cancel, h] at hb
    exact absurd hb (fun hx => SKind.noConfusion hx)

theorem kind_done_not_blank (K : List SKind) (st : TestState)
    (h : ReachInv K st) : kindAt K st.done ≠ SKind.blank := by
  obtain ⟨⟨h1, h2, h3, h4, h5, h6, h7, h8, h9⟩, h10⟩ := h
  intro hk
  have hempty := h9 st.done h3 (Nat.le_refl _) hk
  rw [hempty] at h10
  exact Option.noConfusion h10

theorem kind_done_space (K : List SKind) (st : TestState)
    (h : ReachInv K st) (hc : st.current_char = ' ') :
    kindAt K st.done = SKind.space := by
  obtain ⟨⟨h1, h2, h3, h4, h5, h6, h7, h8, h9⟩, h10⟩ := h
  rcases hk : kindAt K st.done with _ | _ | _
  · exfalso
    have hf := h4 st.done h3
    rw [hk] at hf
    obtain ⟨c, hco, hcne⟩ := fits_glyph_elim _ hf
    rw [hco] at h10
    simp at h10
    rw [h10, hc] at hcne
    exact hcne rfl
  · exact absurd hk (kind_done_not_blank K st ⟨⟨h1, h2, h3, h4, h5, h6, h7, h8, h9⟩, h10⟩)
  · rfl

theorem kind_done_glyph (K : List SKind) (st : TestState)
    (h : ReachInv K st) (hc : st.current_char ≠ ' ') :
    kindAt K st.done = SKind.glyph := by
  obtain ⟨⟨h1, h2, h3, h4, h5, h6, h7, h8, h9⟩, h10⟩ := h
  rcases hk : kindAt K st.done with _ | _ | _
  · rfl
  · exact absurd hk (kind_done_not_blank K st ⟨⟨h1, h2, h3, h4, h5, h6, h7, h8, h9⟩, h10⟩)
  · exfalso
    have hf := h4 st.done h3
    rw [hk] at hf
    have : (spanAt st.text st.done).content = [' '] := hf
    rw [this] at h10
    simp at h10
    exact hc h10.symm

theorem Inv_init (B : List Span) (K : List SKind) (hB : InitOK B K) :
    ReachInv K (initState B) := by
  obtain ⟨hlen, hs, hfits, hsty, hslot, hemp⟩ := hB
  have hKpos : 0 < K.length := by
    obtain ⟨hne, -, -, -, -⟩ := hs
    exact List.length_pos.mpr (by
      intro hK
      exact hne hK)
  have hg0 : kindAt K 0 = SKind.glyph := hs.2.1
  have hf0 := hfits 0 hKpos
  rw [hg0] at hf0
  obtain ⟨c, hco, -⟩ := fits_glyph_elim _ hf0
  constructor
  · refine ⟨hlen, hlen, hKpos, hfits, fun i hi _ hnb => hsty i hi hnb,
      fun i hi => absurd hi (Nat.not_lt_zero i),
      fun i hi hbk => hslot i hi hbk, rfl, fun i hi _ => hemp i hi⟩
  · show (spanAt B 0).content.head? = some ((spanAt B 0).content.headD ' ')
    rw [hco]
    rfl

theorem fits_content_congr (k : SKind) (sp sp2 : Span)
    (h : sp2.content = sp.content) (hf : spanFits k sp) : spanFits k sp2 := by
  cases k <;> simpa [spanFits, h] using hf


theorem Inv_advance (B : List Span) (K : List SKind) (st : TestState)
    (hB : InitOK B K) (h : ReachInv K st)
    (sNew : Style) (hsNew : sNew ≠ Style.todo)
    (st1 : TestState)
    (ht : st1.text = setStyle st.text st.done sNew)
    (hd : st1.done = st.done + 1)
    (hb : st1.blanks = st.blanks)
    (htl : st1.test_length = st.test_length) :
    ReachInv K (set_next_char_or_end B st1) := by
  obtain ⟨⟨h1, h2, h3, h4, h5, h6, h7, h8, h9⟩, h10⟩ := h
  have hkd : kindAt K st.done ≠ SKind.blank :=
    kind_done_not_blank K st ⟨⟨h1, h2, h3, h4, h5, h6, h7, h8, h9⟩, h10⟩
  have hdt : st.done < st.text.length := h1 ▸ h3
  have hpt : ∀ i, spanAt st1.text i =
      if i = st.done then Span.mk (spanAt st.text st.done).content sNew
      else spanAt st.text i := by
    intro i
    rw [ht]
    rcases eq_or_ne i st.done with rfl | hne
    · rw [if_pos rfl, spanAt_setStyle_self _ _ _ hdt]
    · rw [if_neg hne, spanAt_setStyle_ne _ _ _ _ (Ne.symm hne)]
  have hlen1 : st1.text.length = K.length := by rw [ht, length_setStyle, h1]
  rw [set_next_char_or_end]
  by_cases hlt : st1.done < st1.test_length
  · rw [if_pos hlt]
    rw [hd, htl, h2] at hlt
    have hnext : kindAt K (st.done + 1) = SKind.glyph ∨ kindAt K (st.done + 1) = SKind.blank := by
      rcases hk : kindAt K st.done with _ | _ | _
      · exact shape_glyph_next K hB.2.1 st.done hlt hk
      · exact absurd hk hkd
      · exact Or.inl (shape_space_next K hB.2.1 st.done h3 hk)
    have hsp1 : spanAt st1.text (st.done + 1) = spanAt st.text (st.done + 1) := by
      rw [hpt]
      simp
    rcases hnext with hg | hbl
    · obtain ⟨c, hco, hcne⟩ := fits_glyph_elim _ (by
        have := h4 (st.done + 1) hlt
        rwa [hg] at this)
      have hget : get_next_char st1 = some c := by
        rw [get_next_char, hd, hsp1, hco]
        rfl
      have hred : set_next_char_beware_blanks st1 = { st1 with current_char := c } := by
        unfold set_next_char_beware_blanks
        rw [hget]
      rw [hred]
      refine ⟨⟨?_, ?_, ?_, ?_, ?_, ?_, ?_, ?_, ?_⟩, ?_⟩
      · exact hlen1
      · show st1.test_length = K.length
        rw [htl, h2]
      · show st1.done < K.length
        rw [hd]
        exact hlt
      · intro i hi
        show spanFits _ (spanAt st1.text i)
        rw [hpt]
        rcases eq_or_ne i st.done with rfl | hne
        · rw [if_pos rfl]
          exact fits_content_congr _ (spanAt st.text st.done) _ rfl (h4 st.done hi)
        · rw [if_neg hne]
          exact h4 i hi
      · intro i hi hle hnb
        show (spanAt st1.text i).style = Style.todo
        replace hle : st1.done ≤ i := hle
        rw [hd] at hle
        rw [hpt, if_neg (by omega : ¬ i = st.done)]
        exact h5 i hi (by omega) hnb
      · intro i hi hnb
        show (spanAt st1.text i).style ≠ Style.todo
        replace hi : i < st1.done := hi
        rw [hd] at hi
        rw [hpt]
        rcases eq_or_ne i st.done with rfl | hne
        · rw [if_pos rfl]
          exact hsNew
        · rw [if_neg hne]
          exact h6 i (by omega) hnb
      · intro i hi hbk
        show (spanAt st1.text i).style = Style.wrong
        rw [hpt, if_neg (fun he : i = st.done => hkd (he ▸ hbk))]
        exact h7 i hi hbk
      · show st1.blanks = idxCount _ st1.done
        rw [hb, hd, idxCount_succ, h8]
        have hz : (kindAt K st.done == SKind.blank) = false := by
          simp only [beq_eq_false_iff_ne, ne_eq]
          exact hkd
        rw [hz]
        simp
      · intro i hi hle hbk
        show (spanAt st1.text i).content = []
        replace hle : st1.done ≤ i := hle
        rw [hd] at hle
        rw [hpt, if_neg (by omega : ¬ i = st.done)]
        exact h9 i hi (by omega) hbk
      · show (spanAt st1.text st1.done).content.head? = some c
        rw [hd, hsp1, hco]
        rfl
    · have hemp : (spanAt st.text (st.done + 1)).content = [] :=
        h9 (st.done + 1) hlt (Nat.le_succ _) hbl
      have hget : get_next_char st1 = none := by
        rw [get_next_char, hd, hsp1, hemp]
        rfl
      have hred : set_next_char_beware_blanks st1 =
          set_next_char { st1 with done := st1.done + 1, blanks := st1.blanks + 1 } := by
        unfold set_next_char_beware_blanks
        rw [hget]
      rw [hred]
      obtain ⟨-, -, hd2, hk2⟩ := shape_blank_struct K hB.2.1 (st.done + 1) hlt hbl
      have hf2 := h4 (st.done + 2) hd2
      rw [hk2] at hf2
      have hco2 : (spanAt st.text (st.done + 2)).content = [' '] := hf2
      have hsp2 : spanAt st1.text (st.done + 2) = spanAt st.text (st.done + 2) := by
        rw [hpt]
        simp
      have hset : set_next_char { st1 with done := st1.done + 1, blanks := st1.blanks + 1 } =
          { st1 with done := st1.done + 1, blanks := st1.blanks + 1, current_char := ' ' } := by
        unfold set_next_char
        have : spanAt st1.text (st1.done + 1) = spanAt st.text (st.done + 2) := by
          rw [hd]
          exact hsp2
        simp only [this, hco2]
        rfl
      rw [hset]
      refine ⟨⟨?_, ?_, ?_, ?_, ?_, ?_, ?_, ?_, ?_⟩, ?_⟩
      · exact hlen1
      · show st1.test_length = K.length
        rw [htl, h2]
      · show st1.done + 1 < K.length
        rw [hd]
        exact hd2
      · intro i hi
        show spanFits _ (spanAt st1.text i)
        rw [hpt]
        rcases eq_or_ne i st.done with rfl | hne
        · rw [if_pos rfl]
          exact fits_content_congr _ (spanAt st.text st.done) _ rfl (h4 st.done hi)
        · rw [if_neg hne]
          exact h4 i hi
      · intro i hi hle hnb
        show (spanAt st1.text i).style = Style.todo
        replace hle : st1.done + 1 ≤ i := hle
        rw [hd] at hle
        rw [hpt, if_neg (by omega : ¬ i = st.done)]
        exact h5 i hi (by omega) hnb
      · intro i hi hnb
        show (spanAt st1.text i).style ≠ Style.todo
        replace hi : i < st1.done + 1 := hi
        rw [hd] at hi
        rw [hpt]
        rcases eq_or_ne i st.done with rfl | hne
        · rw [if_pos rfl]
          exact hsNew
        · rw [if_neg hne]
          have hca : i < st.done ∨ i = st.done + 1 := by omega
          rcases hca with hlt2 | rfl
          · exact h6 i hlt2 hnb
          · exact absurd hbl hnb
      · intro i hi hbk
        show (spanAt st1.text i).style = Style.wrong
        rw [hpt, if_neg (fun he : i = st.done => hkd (he ▸ hbk))]
        exact h7 i hi hbk
      · show st1.blanks + 1 = idxCount _ (st1.done + 1)
        rw [hb, hd, idxCount_succ, idxCount_succ, h8]
        have hz : (kindAt K st.done == SKind.blank) = false := by
          simp only [beq_eq_false_iff_ne, ne_eq]
          exact hkd
        have ho : (kindAt K (st.done + 1) == SKind.blank) = true := by
          simp only [beq_iff_eq]
          exact hbl
        rw [hz, ho]
        simp
      · intro i hi hle hbk
        show (spanAt st1.text i).content = []
        replace hle : st1.done + 1 ≤ i := hle
        rw [hd] at hle
        rw [hpt, if_neg (by omega : ¬ i = st.done)]
        exact h9 i hi (by omega) hbk
      · show (spanAt st1.text (st1.done + 1)).content.head? = some ' '
        rw [hd, hsp2, hco2]
        rfl
  · rw [if_neg hlt]
    exact Inv_init B K hB

theorem Inv_fields (K : List SKind) (st st2 : TestState) (h : ReachInv K st)
    (ht : st2.text = st.text) (hd : st2.done = st.done)
    (hb : st2.blanks = st.blanks) (htl : st2.test_length = st.test_length)
    (hc : st2.current_char = st.current_char) : ReachInv K st2 := by
  obtain ⟨⟨h1, h2, h3, h4, h5, h6, h7, h8, h9⟩, h10⟩ := h
  refine ⟨⟨?_, ?_, ?_, ?_, ?_, ?_, ?_, ?_, ?_⟩, ?_⟩
  · rw [ht]; exact h1
  · rw [htl]; exact h2
  · rw [hd]; exact h3
  · rw [ht]; exact h4
  · rw [ht, hd]; exact h5
  · rw [ht, hd]; exact h6
  · rw [ht]; exact h7
  · rw [hb, hd]; exact h8
  · rw [ht, hd]; exact h9
  · rw [ht, hd, hc]; exact h10

theorem Inv_wrong_space (K : List SKind) (st : TestState) (hs : shapeOK K)
    (h : ReachInv K st) (hc : st.current_char = ' ') (c : Char) (hcne : c ≠ ' ')
    (hlt8 : (spanAt st.text (st.done - 1)).content.length < 8)
    (st2 : TestState)
    (ht : st2.text = setContent st.text (st.done - 1)
      ((spanAt st.text (st.done - 1)).content ++ [c]))
    (hd : st2.done = st.done) (hb : st2.blanks = st.blanks)
    (htl : st2.test_length = st.test_length)
    (hcc : st2.current_char = st.current_char) : ReachInv K st2 := by
  have hksp : kindAt K st.done = SKind.space := kind_done_space K st h hc
  obtain ⟨⟨h1, h2, h3, h4, h5, h6, h7, h8, h9⟩, h10⟩ := h
  obtain ⟨hd2, hkb, hkg⟩ := shape_space_struct K hs st.done h3 hksp
  have hdm1 : st.done - 1 < st.text.length := by
    rw [h1]
    omega
  have hfb := h4 (st.done - 1) (by rw [← h1]; exact Nat.lt_of_lt_of_le hdm1 (Nat.le_refl _))
  rw [hkb] at hfb
  obtain ⟨hfl, hfm⟩ := hfb
  have hpt : ∀ i, spanAt st2.text i =
      if i = st.done - 1 then
        Span.mk ((spanAt st.text (st.done - 1)).content ++ [c]) (spanAt st.text (st.done - 1)).style
      else spanAt st.text i := by
    intro i
    rw [ht]
    rcases eq_or_ne i (st.done - 1) with rfl | hne
    · rw [if_pos rfl, spanAt_setContent_self _ _ _ hdm1]
    · rw [if_neg hne, spanAt_setContent_ne _ _ _ _ (Ne.symm hne)]
  have hstyeq : ∀ i, (spanAt st2.text i).style = (spanAt st.text i).style := by
    intro i
    rw [hpt]
    rcases eq_or_ne i (st.done - 1) with rfl | hne
    · rw [if_pos rfl]
    · rw [if_neg hne]
  refine ⟨⟨?_, ?_, ?_, ?_, ?_, ?_, ?_, ?_, ?_⟩, ?_⟩
  · rw [ht, length_setContent, h1]
  · rw [htl, h2]
  · rw [hd]; exact h3
  · intro i hi
    rw [hpt]
    rcases eq_or_ne i (st.done - 1) with rfl | hne
    · rw [if_pos rfl, hkb]
      refine ⟨?_, ?_⟩
      · simp only [List.length_append, List.length_singleton]
        omega
      · intro hmem
        rcases List.mem_append.mp hmem with hin | hin
        · exact hfm hin
        · rw [List.mem_singleton] at hin
          exact hcne hin.symm
    · rw [if_neg hne]
      exact h4 i hi
  · intro i hi hle hnb
    rw [hstyeq]
    rw [hd] at hle
    exact h5 i hi hle hnb
  · intro i hi hnb
    rw [hstyeq]
    rw [hd] at hi
    exact h6 i hi hnb
  · intro i hi hbk
    rw [hstyeq]
    exact h7 i hi hbk
  · rw [hb, hd]
    exact h8
  · intro i hi hle hbk
    rw [hd] at hle
    rw [hpt, if_neg (by omega : ¬ i = st.done - 1)]
    exact h9 i hi hle hbk
  · rw [hd, hcc, hpt, if_neg (by omega : ¬ st.done = st.done - 1)]
    exact h10

theorem Inv_backspace_simple (K : List SKind) (st : TestState) (hs : shapeOK K)
    (h : ReachInv K st) (hc : st.current_char ≠ ' ') (h0 : 0 < st.done)
    (st2 : TestState)
    (ht : st2.text = setStyle st.text (st.done - 1) Style.todo)
    (hd : st2.done = st.done - 1) (hb : st2.blanks = st.blanks)
    (htl : st2.test_length = st.test_length)
    (hcc : st2.current_char = (spanAt st.text (st.done - 1)).content.headD ' ') :
    ReachInv K st2 := by
  have hkg : kindAt K st.done = SKind.glyph := kind_done_glyph K st h hc
  obtain ⟨⟨h1, h2, h3, h4, h5, h6, h7, h8, h9⟩, h10⟩ := h
  have hm1K : st.done - 1 < K.length := by omega
  have hm1t : st.done - 1 < st.text.length := by rw [h1]; omega
  have hknb : kindAt K (st.done - 1) ≠ SKind.blank := by
    intro hbl
    obtain ⟨-, -, -, hsp⟩ := shape_blank_struct K hs (st.done - 1) hm1K hbl
    have : st.done - 1 + 1 = st.done := by omega
    rw [this, hkg] at hsp
    exact SKind.noConfusion hsp
  have hpt : ∀ i, spanAt st2.text i =
      if i = st.done - 1 then Span.mk (spanAt st.text (st.done - 1)).content Style.todo
      else spanAt st.text i := by
    intro i
    rw [ht]
    rcases eq_or_ne i (st.done - 1) with rfl | hne
    · rw [if_pos rfl, spanAt_setStyle_self _ _ _ hm1t]
    · rw [if_neg hne, spanAt_setStyle_ne _ _ _ _ (Ne.symm hne)]
  refine ⟨⟨?_, ?_, ?_, ?_, ?_, ?_, ?_, ?_, ?_⟩, ?_⟩
  · rw [ht, length_setStyle, h1]
  · rw [htl, h2]
  · rw [hd]; omega
  · intro i hi
    rw [hpt]
    rcases eq_or_ne i (st.done - 1) with rfl | hne
    · rw [if_pos rfl]
      exact fits_content_congr _ (spanAt st.text (st.done - 1)) _ rfl (h4 _ hi)
    · rw [if_neg hne]
      exact h4 i hi
  · intro i hi hle hnb
    rw [hd] at hle
    rw [hpt]
    rcases eq_or_ne i (st.done - 1) with rfl | hne
    · rw [if_pos rfl]
    · rw [if_neg hne]
      exact h5 i hi (by omega) hnb
  · intro i hi hnb
    rw [hd] at hi
    rw [hpt, if_neg (by omega : ¬ i = st.done - 1)]
    exact h6 i (by omega) hnb
  · intro i hi hbk
    rw [hpt]
    rcases eq_or_ne i (st.done - 1) with rfl | hne
    · exact absurd hbk hknb
    · rw [if_neg hne]
      exact h7 i hi hbk
  · rw [hb, hd]
    have hst : st.done = st.done - 1 + 1 := by omega
    rw [hst, idxCount_succ] at h8
    have hz : (kindAt K (st.done - 1) == SKind.blank) = false := by
      simp only [beq_eq_false_iff_ne, ne_eq]
      exact hknb
    rw [hz] at h8
    simpa using h8
  · intro i hi hle hbk
    rw [hd] at hle
    have hine : i ≠ st.done - 1 := fun he => hknb (he ▸ hbk)
    rw [hpt, if_neg hine]
    exact h9 i hi (by omega) hbk
  · rw [hd, hcc, hpt, if_pos rfl]
    show (spanAt st.text (st.done - 1)).content.head? = _
    rcases hk2 : kindAt K (st.done - 1) with _ | _ | _
    · have hf := h4 (st.done - 1) hm1K
      rw [hk2] at hf
      obtain ⟨cc, hco, -⟩ := fits_glyph_elim _ hf
      rw [hco]
      rfl
    · exact absurd hk2 hknb
    · have hf := h4 (st.done - 1) hm1K
      rw [hk2] at hf
      have hco : (spanAt st.text (st.done - 1)).content = [' '] := hf
      rw [hco]
      rfl

theorem Inv_backspace_jump (K : List SKind) (st : TestState) (hs : shapeOK K)
    (h : ReachInv K st) (hc : st.current_char = ' ')
    (hemp : (spanAt st.text (st.done - 1)).content = [])
    (st2 : TestState)
    (ht : st2.text = setStyle st.text (st.done - 2) Style.todo)
    (hd : st2.done = st.done - 2) (hb : st2.blanks = st.blanks - 1)
    (htl : st2.test_length = st.test_length)
    (hcc : st2.current_char = (spanAt st.text (st.done - 2)).content.headD ' ') :
    ReachInv K st2 := by
  have hksp : kindAt K st.done = SKind.space := kind_done_space K st h hc
  obtain ⟨⟨h1, h2, h3, h4, h5, h6, h7, h8, h9⟩, h10⟩ := h
  obtain ⟨hd2, hkb, hkg⟩ := shape_space_struct K hs st.done h3 hksp
  have hm2K : st.done - 2 < K.length := by omega
  have hm2t : st.done - 2 < st.text.length := by rw [h1]; omega
  have hpt : ∀ i, spanAt st2.text i =
      if i = st.done - 2 then Span.mk (spanAt st.text (st.done - 2)).content Style.todo
      else spanAt st.text i := by
    intro i
    rw [ht]
    rcases eq_or_ne i (st.done - 2) with rfl | hne
    · rw [if_pos rfl, spanAt_setStyle_self _ _ _ hm2t]
    · rw [if_neg hne, spanAt_setStyle_ne _ _ _ _ (Ne.symm hne)]
  have hcount : st.blanks = idxCount (fun i => kindAt K i == SKind.blank) (st.done - 2) + 1 := by
    have hst : st.done = st.done - 2 + 1 + 1 := by omega
    rw [hst, idxCount_succ, idxCount_succ] at h8
    have hg0 : (kindAt K (st.done - 2) == SKind.blank) = false := by
      simp only [beq_eq_false_iff_ne, ne_eq]
      rw [hkg]
      intro hx
      exact SKind.noConfusion hx
    have hb1 : (kindAt K (st.done - 2 + 1) == SKind.blank) = true := by
      have : st.done - 2 + 1 = st.done - 1 := by omega
      rw [this]
      simp only [beq_iff_eq]
      exact hkb
    rw [hg0, hb1] at h8
    rw [h8]
    simp
  refine ⟨⟨?_, ?_, ?_, ?_, ?_, ?_, ?_, ?_, ?_⟩, ?_⟩
  · rw [ht, length_setStyle, h1]
  · rw [htl, h2]
  · rw [hd]; omega
  · intro i hi
    rw [hpt]
    rcases eq_or_ne i (st.done - 2) with rfl | hne
    · rw [if_pos rfl]
      exact fits_content_congr _ (spanAt st.text (st.done - 2)) _ rfl (h4 _ hi)
    · rw [if_neg hne]
      exact h4 i hi
  · intro i hi hle hnb
    rw [hd] at hle
    rw [hpt]
    rcases eq_or_ne i (st.done - 2) with rfl | hne
    · rw [if_pos rfl]
    · rw [if_neg hne]
      rcases Nat.lt_or_ge i st.done with hlt | hge
      · exfalso
        have hieq : i = st.done - 1 := by omega
        rw [hieq] at hnb
        exact hnb hkb
      · exact h5 i hi hge hnb
  · intro i hi hnb
    rw [hd] at hi
    rw [hpt, if_neg (by omega : ¬ i = st.done - 2)]
    exact h6 i (by omega) hnb
  · intro i hi hbk
    rw [hpt]
    rcases eq_or_ne i (st.done - 2) with rfl | hne
    · exfalso
      rw [hkg] at hbk
      exact SKind.noConfusion hbk
    · rw [if_neg hne]
      exact h7 i hi hbk
  · rw [hb, hd, hcount]
    simp
  · intro i hi hle hbk
    rw [hd] at hle
    have hine : i ≠ st.done - 2 := by
      intro he
      rw [he, hkg] at hbk
      exact SKind.noConfusion hbk
    rw [hpt, if_neg hine]
    rcases Nat.lt_or_ge i st.done with hlt | hge
    · have : i = st.done - 1 := by omega
      rw [this]
      exact hemp
    · exact h9 i hi hge hbk
  · rw [hd, hcc, hpt, if_pos rfl]
    show (spanAt st.text (st.done - 2)).content.head? = _
    have hf := h4 (st.done - 2) hm2K
    rw [hkg] at hf
    obtain ⟨cc, hco, -⟩ := fits_glyph_elim _ hf
    rw [hco]
    rfl

theorem Inv_backspace_pop (K : List SKind) (st : TestState) (hs : shapeOK K)
    (h : ReachInv K st) (hc : st.current_char = ' ')
    (st2 : TestState)
    (ht : st2.text = setContent st.text (st.done - 1)
      ((spanAt st.text (st.done - 1)).content.dropLast))
    (hd : st2.done = st.done) (hb : st2.blanks = st.blanks)
    (htl : st2.test_length = st.test_length)
    (hcc : st2.current_char = st.current_char) : ReachInv K st2 := by
  have hksp : kindAt K st.done = SKind.space := kind_done_space K st h hc
  obtain ⟨⟨h1, h2, h3, h4, h5, h6, h7, h8, h9⟩, h10⟩ := h
  obtain ⟨hd2, hkb, hkg⟩ := shape_space_struct K hs st.done h3 hksp
  have hm1t : st.done - 1 < st.text.length := by rw [h1]; omega
  have hpt : ∀ i, spanAt st2.text i =
      if i = st.done - 1 then
        Span.mk ((spanAt st.text (st.done - 1)).content.dropLast) (spanAt st.text (st.done - 1)).style
      else spanAt st.text i := by
    intro i
    rw [ht]
    rcases eq_or_ne i (st.done - 1) with rfl | hne
    · rw [if_pos rfl, spanAt_setContent_self _ _ _ hm1t]
    · rw [if_neg hne, spanAt_setContent_ne _ _ _ _ (Ne.symm hne)]
  have hstyeq : ∀ i, (spanAt st2.text i).style = (spanAt st.text i).style := by
    intro i
    rw [hpt]
    rcases eq_or_ne i (st.done - 1) with rfl | hne
    · rw [if_pos rfl]
    · rw [if_neg hne]
  refine ⟨⟨?_, ?_, ?_, ?_, ?_, ?_, ?_, ?_, ?_⟩, ?_⟩
  · rw [ht, length_setContent, h1]
  · rw [htl, h2]
  · rw [hd]; exact h3
  · intro i hi
    rw [hpt]
    rcases eq_or_ne i (st.done - 1) with rfl | hne
    · rw [if_pos rfl]
      have hf := h4 (st.done - 1) hi
      rw [hkb] at hf
      rw [hkb]
      obtain ⟨hfl, hfm⟩ := hf
      refine ⟨?_, ?_⟩
      · calc (spanAt st.text (st.done - 1)).content.dropLast.length
            ≤ (spanAt st.text (st.done - 1)).content.length := by
              rw [List.length_dropLast]
              omega
          _ ≤ 8 := hfl
      · intro hmem
        exact hfm (List.dropLast_subset _ hmem)
    · rw [if_neg hne]
      exact h4 i hi
  · intro i hi hle hnb
    rw [hstyeq]
    rw [hd] at hle
    exact h5 i hi hle hnb
  · intro i hi hnb
    rw [hstyeq]
    rw [hd] at hi
    exact h6 i hi hnb
  · intro i hi hbk
    rw [hstyeq]
    exact h7 i hi hbk
  · rw [hb, hd]
    exact h8
  · intro i hi hle hbk
    rw [hd] at hle
    rw [hpt]
    rcases eq_or_ne i (st.done - 1) with rfl | hne
    · rw [if_pos rfl]
      show (spanAt st.text (st.done - 1)).content.dropLast = []
      rw [h9 (st.done - 1) hi hle hbk]
      rfl
    · rw [if_neg hne]
      exact h9 i hi hle hbk
  · rw [hd, hcc, hpt, if_neg (by omega : ¬ st.done = st.done - 1)]
    exact h10

theorem InvCore_unstyle_glyph (K : List SKind) (st : TestState)
    (h : InvCore K st) (h0 : 0 < st.done)
    (hg : kindAt K (st.done - 1) = SKind.glyph)
    (st2 : TestState)
    (ht : st2.text = setStyle st.text (st.done - 1) Style.todo)
    (hd : st2.done = st.done - 1) (hb : st2.blanks = st.blanks)
    (htl : st2.test_length = st.test_length) : InvCore K st2 := by
  obtain ⟨h1, h2, h3, h4, h5, h6, h7, h8, h9⟩ := h
  have hm1t : st.done - 1 < st.text.length := by rw [h1]; omega
  have hpt : ∀ i, spanAt st2.text i =
      if i = st.done - 1 then Span.mk (spanAt st.text (st.done - 1)).content Style.todo
      else spanAt st.text i := by
    intro i
    rw [ht]
    rcases eq_or_ne i (st.done - 1) with rfl | hne
    · rw [if_pos rfl, spanAt_setStyle_self _ _ _ hm1t]
    · rw [if_neg hne, spanAt_setStyle_ne _ _ _ _ (Ne.symm hne)]
  refine ⟨?_, ?_, ?_, ?_, ?_, ?_, ?_, ?_, ?_⟩
  · rw [ht, length_setStyle, h1]
  · rw [htl, h2]
  · rw [hd]; omega
  · intro i hi
    rw [hpt]
    rcases eq_or_ne i (st.done - 1) with rfl | hne
    · rw [if_pos rfl]
      exact fits_content_congr _ (spanAt st.text (st.done - 1)) _ rfl (h4 _ hi)
    · rw [if_neg hne]
      exact h4 i hi
  · intro i hi hle hnb
    rw [hd] at hle
    rw [hpt]
    rcases eq_or_ne i (st.done - 1) with rfl | hne
    · rw [if_pos rfl]
    · rw [if_neg hne]
      exact h5 i hi (by omega) hnb
  · intro i hi hnb
    rw [hd] at hi
    rw [hpt, if_neg (by omega : ¬ i = st.done - 1)]
    exact h6 i (by omega) hnb
  · intro i hi hbk
    rw [hpt]
    rcases eq_or_ne i (st.done - 1) with rfl | hne
    · exfalso
      rw [hg] at hbk
      exact SKind.noConfusion hbk
    · rw [if_neg hne]
      exact h7 i hi hbk
  · rw [hb, hd]
    have hst : st.done = st.done - 1 + 1 := by omega
    rw [hst, idxCount_succ] at h8
    have hz : (kindAt K (st.done - 1) == SKind.blank) = false := by
      simp only [beq_eq_false_iff_ne, ne_eq]
      rw [hg]
      intro hx
      exact SKind.noConfusion hx
    rw [hz] at h8
    simpa using h8
  · intro i hi hle hbk
    rw [hd] at hle
    have hine : i ≠ st.done - 1 := by
      intro he
      rw [he, hg] at hbk
      exact SKind.noConfusion hbk
    rw [hpt, if_neg hine]
    exact h9 i hi (by omega) hbk

theorem ctrlWhile_core (K : List SKind) (hs : shapeOK K) :
    ∀ (d : Nat) (st : TestState), st.done = d → InvCore K st →
    (st.done = 0 ∨ kindAt K st.done = SKind.glyph) →
    InvCore K (ctrlWhile d st) ∧
      ((ctrlWhile d st).done = 0 ∨ kindAt K (ctrlWhile d st).done = SKind.glyph) := by
  intro d
  induction d with
  | zero =>
    intro st hd hcore hdisj
    exact ⟨hcore, hdisj⟩
  | succ d ih =>
    intro st hd hcore hdisj
    have hgd1 : kindAt K st.done = SKind.glyph := by
      rcases hdisj with h0 | hg
      · rw [hd] at h0
        exact absurd h0 (Nat.succ_ne_zero d)
      · exact hg
    rw [ctrlWhile]
    by_cases hsp : (spanAt st.text d).content = [' ']
    · rw [if_neg (by
        intro hne
        exact hne hsp)]
      exact ⟨hcore, hdisj⟩
    · rw [if_pos (by
        intro he
        exact hsp he)]
      have h1 := hcore.1
      have h3 := hcore.2.2.1
      have h4 := hcore.2.2.2.1
      have hdK : d < K.length := by omega
      have hgd : kindAt K d = SKind.glyph := by
        rcases hk : kindAt K d with _ | _ | _
        · rfl
        · exfalso
          obtain ⟨-, -, -, hnx⟩ := shape_blank_struct K hs d hdK hk
          rw [← hd] at hnx
          rw [hgd1] at hnx
          exact SKind.noConfusion hnx
        · exfalso
          have hf := h4 d hdK
          rw [hk] at hf
          exact hsp hf
      refine ih _ rfl ?_ ?_
      · apply InvCore_unstyle_glyph K st hcore (by omega)
          (by
            have hde : st.done - 1 = d := by omega
            rw [hde]
            exact hgd)
        · show setStyle st.text d Style.todo = setStyle st.text (st.done - 1) Style.todo
          have hde : st.done - 1 = d := by omega
          rw [hde]
        · show d = st.done - 1
          omega
        · rfl
        · rfl
      · rcases Nat.eq_zero_or_pos d with h0 | hpos
        · exact Or.inl h0
        · exact Or.inr hgd

theorem InvCore_fields (K : List SKind) (st st2 : TestState) (h : InvCore K st)
    (ht : st2.text = st.text) (hd : st2.done = st.done)
    (hb : st2.blanks = st.blanks) (htl : st2.test_length = st.test_length) :
    InvCore K st2 := by
  obtain ⟨h1, h2, h3, h4, h5, h6, h7, h8, h9⟩ := h
  refine ⟨?_, ?_, ?_, ?_, ?_, ?_, ?_, ?_, ?_⟩
  · rw [ht]; exact h1
  · rw [htl]; exact h2
  · rw [hd]; exact h3
  · rw [ht]; exact h4
  · rw [ht, hd]; exact h5
  · rw [ht, hd]; exact h6
  · rw [ht]; exact h7
  · rw [hb, hd]; exact h8
  · rw [ht, hd]; exact h9

theorem Inv_ctrl_exit (K : List SKind) (hs : shapeOK K) (st : TestState)
    (hcore : InvCore K st)
    (hdisj : st.done = 0 ∨ kindAt K st.done = SKind.glyph) :
    ReachInv K (set_next_char (ctrlWhile st.done st)) := by
  obtain ⟨hc2, hd2⟩ := ctrlWhile_core K hs st.done st rfl hcore hdisj
  have hgr : kindAt K (ctrlWhile st.done st).done = SKind.glyph := by
    rcases hd2 with h0 | hg
    · rw [h0]
      exact hs.2.1
    · exact hg
  have hrdK : (ctrlWhile st.done st).done < K.length := hc2.2.2.1
  have hf := hc2.2.2.2.1 (ctrlWhile st.done st).done hrdK
  rw [hgr] at hf
  obtain ⟨c, hco, -⟩ := fits_glyph_elim _ hf
  constructor
  · exact InvCore_fields K (ctrlWhile st.done st) _ hc2 rfl rfl rfl rfl
  · show (spanAt (ctrlWhile st.done st).text (ctrlWhile st.done st).done).content.head? =
      some ((spanAt (ctrlWhile st.done st).text (ctrlWhile st.done st).done).content.headD ' ')
    rw [hco]
    rfl

theorem Inv_ctrl_case1 (K : List SKind) (st : TestState) (hs : shapeOK K)
    (h : ReachInv K st) (hc : st.current_char = ' ')
    (st2 : TestState)
    (ht : st2.text = setStyle (setContent st.text (st.done - 1) []) (st.done - 2) Style.todo)
    (hd : st2.done = st.done - 2) (hb : st2.blanks = st.blanks - 1)
    (htl : st2.test_length = st.test_length) :
    InvCore K st2 ∧ (st2.done = 0 ∨ kindAt K st2.done = SKind.glyph) := by
  have hksp : kindAt K st.done = SKind.space := kind_done_space K st h hc
  obtain ⟨⟨h1, h2, h3, h4, h5, h6, h7, h8, h9⟩, h10⟩ := h
  obtain ⟨hd2, hkb, hkg⟩ := shape_space_struct K hs st.done h3 hksp
  have hm1t : st.done - 1 < st.text.length := by rw [h1]; omega
  have hm2t : st.done - 2 < (setContent st.text (st.done - 1) []).length := by
    rw [length_setContent, h1]
    omega
  have hpt : ∀ i, spanAt st2.text i =
      if i = st.done - 2 then Span.mk (spanAt st.text (st.done - 2)).content Style.todo
      else if i = st.done - 1 then Span.mk [] (spanAt st.text (st.done - 1)).style
      else spanAt st.text i := by
    intro i
    rw [ht]
    rcases eq_or_ne i (st.done - 2) with rfl | hne2
    · rw [if_pos rfl, spanAt_setStyle_self _ _ _ hm2t,
        spanAt_setContent_ne _ _ _ _ (by omega : st.done - 1 ≠ st.done - 2)]
    · rw [if_neg hne2, spanAt_setStyle_ne _ _ _ _ (Ne.symm hne2)]
      rcases eq_or_ne i (st.done - 1) with rfl | hne1
      · rw [if_pos rfl, spanAt_setContent_self _ _ _ hm1t]
      · rw [if_neg hne1, spanAt_setContent_ne _ _ _ _ (Ne.symm hne1)]
  have hcount : st.blanks = idxCount (fun i => kindAt K i == SKind.blank) (st.done - 2) + 1 := by
    have hst : st.done = st.done - 2 + 1 + 1 := by omega
    rw [hst, idxCount_succ, idxCount_succ] at h8
    have hg0 : (kindAt K (st.done - 2) == SKind.blank) = false := by
      simp only [beq_eq_false_iff_ne, ne_eq]
      rw [hkg]
      intro hx
      exact SKind.noConfusion hx
    have hb1 : (kindAt K (st.done - 2 + 1) == SKind.blank) = true := by
      have hde : st.done - 2 + 1 = st.done - 1 := by omega
      rw [hde]
      simp only [beq_iff_eq]
      exact hkb
    rw [hg0, hb1] at h8
    rw [h8]
    simp
  refine ⟨⟨?_, ?_, ?_, ?_, ?_, ?_, ?_, ?_, ?_⟩, ?_⟩
  · rw [ht, length_setStyle, length_setContent, h1]
  · rw [htl, h2]
  · rw [hd]; omega
  · intro i hi
    rw [hpt]
    rcases eq_or_ne i (st.done - 2) with rfl | hne2
    · rw [if_pos rfl]
      exact fits_content_congr _ (spanAt st.text (st.done - 2)) _ rfl (h4 _ hi)
    · rw [if_neg hne2]
      rcases eq_or_ne i (st.done - 1) with rfl | hne1
      · rw [if_pos rfl, hkb]
        refine ⟨by simp, by simp⟩
      · rw [if_neg hne1]
        exact h4 i hi
  · intro i hi hle hnb
    rw [hd] at hle
    rw [hpt]
    rcases eq_or_ne i (st.done - 2) with rfl | hne2
    · rw [if_pos rfl]
    · rw [if_neg hne2]
      rcases eq_or_ne i (st.done - 1) with rfl | hne1
      · exact absurd hkb hnb
      · rw [if_neg hne1]
        rcases Nat.lt_or_ge i st.done with hlt | hge
        · exact absurd rfl (by omega : i ≠ i)
        · exact h5 i hi hge hnb
  · intro i hi hnb
    rw [hd] at hi
    rw [hpt, if_neg (by omega : ¬ i = st.done - 2), if_neg (by omega : ¬ i = st.done - 1)]
    exact h6 i (by omega) hnb
  · intro i hi hbk
    rw [hpt]
    rcases eq_or_ne i (st.done - 2) with rfl | hne2
    · exfalso
      rw [hkg] at hbk
      exact SKind.noConfusion hbk
    · rw [if_neg hne2]
      rcases eq_or_ne i (st.done - 1) with rfl | hne1
      · rw [if_pos rfl]
        exact h7 (st.done - 1) hi hkb
      · rw [if_neg hne1]
        exact h7 i hi hbk
  · rw [hb, hd, hcount]
    simp
  · intro i hi hle hbk
    rw [hd] at hle
    have hine2 : i ≠ st.done - 2 := by
      intro he
      rw [he, hkg] at hbk
      exact SKind.noConfusion hbk
    rw [hpt, if_neg hine2]
    rcases eq_or_ne i (st.done - 1) with rfl | hne1
    · rw [if_pos rfl]
    · rw [if_neg hne1]
      exact h9 i hi (by omega) hbk
  · rw [hd]
    exact Or.inr hkg

theorem Inv_ctrl_case2 (K : List SKind) (st : TestState) (hs : shapeOK K)
    (h : ReachInv K st)
    (hsp : (spanAt st.text (st.done - 1)).content = [' ']) (h0 : 0 < st.done)
    (st2 : TestState)
    (ht : st2.text = setStyle (setContent (setStyle st.text (st.done - 1) Style.todo)
      (st.done - 2) []) (st.done - 3) Style.todo)
    (hd : st2.done = st.done - 3) (hb : st2.blanks = st.blanks - 1)
    (htl : st2.test_length = st.test_length) :
    InvCore K st2 ∧ (st2.done = 0 ∨ kindAt K st2.done = SKind.glyph) := by
  obtain ⟨⟨h1, h2, h3, h4, h5, h6, h7, h8, h9⟩, h10⟩ := h
  have hm1K : st.done - 1 < K.length := by omega
  have hksp : kindAt K (st.done - 1) = SKind.space := by
    rcases hk : kindAt K (st.done - 1) with _ | _ | _
    · exfalso
      have hf := h4 (st.done - 1) hm1K
      rw [hk] at hf
      obtain ⟨cc, hco, hcn⟩ := fits_glyph_elim _ hf
      rw [hco] at hsp
      have hcc : cc = ' ' := by injection hsp
      exact hcn hcc
    · exfalso
      have hf := h4 (st.done - 1) hm1K
      rw [hk] at hf
      obtain ⟨-, hfm⟩ := hf
      apply hfm
      rw [hsp]
      exact List.mem_singleton.mpr rfl
    · rfl
  obtain ⟨hd2, hkb, hkg⟩ := shape_space_struct K hs (st.done - 1) hm1K hksp
  have hde1 : st.done - 1 - 1 = st.done - 2 := by omega
  have hde2 : st.done - 1 - 2 = st.done - 3 := by omega
  rw [hde1] at hkb
  rw [hde2] at hkg
  have hm1t : st.done - 1 < st.text.length := by rw [h1]; omega
  have hm2t : st.done - 2 < (setStyle st.text (st.done - 1) Style.todo).length := by
    rw [length_setStyle, h1]
    omega
  have hm3t : st.done - 3 <
      (setContent (setStyle st.text (st.done - 1) Style.todo) (st.done - 2) []).length := by
    rw [length_setContent, length_setStyle, h1]
    omega
  have hpt : ∀ i, spanAt st2.text i =
      if i = st.done - 3 then Span.mk (spanAt st.text (st.done - 3)).content Style.todo
      else if i = st.done - 2 then Span.mk [] (spanAt st.text (st.done - 2)).style
      else if i = st.done - 1 then Span.mk (spanAt st.text (st.done - 1)).content Style.todo
      else spanAt st.text i := by
    intro i
    rw [ht]
    rcases eq_or_ne i (st.done - 3) with rfl | hne3
    · rw [if_pos rfl, spanAt_setStyle_self _ _ _ hm3t,
        spanAt_setContent_ne _ _ _ _ (by omega : st.done - 2 ≠ st.done - 3),
        content_setStyle]
    · rw [if_neg hne3, spanAt_setStyle_ne _ _ _ _ (Ne.symm hne3)]
      rcases eq_or_ne i (st.done - 2) with rfl | hne2
      · rw [if_pos rfl, spanAt_setContent_self _ _ _ hm2t,
          spanAt_setStyle_ne _ _ _ _ (by omega : st.done - 1 ≠ st.done - 2)]
      · rw [if_neg hne2, spanAt_setContent_ne _ _ _ _ (Ne.symm hne2)]
        rcases eq_or_ne i (st.done - 1) with rfl | hne1
        · rw [if_pos rfl, spanAt_setStyle_self _ _ _ hm1t]
        · rw [if_neg hne1, spanAt_setStyle_ne _ _ _ _ (Ne.symm hne1)]
  have hcount : st.blanks = idxCount (fun i => kindAt K i == SKind.blank) (st.done - 3) + 1 := by
    have hst : st.done = st.done - 3 + 1 + 1 + 1 := by omega
    rw [hst, idxCount_succ, idxCount_succ, idxCount_succ] at h8
    have hg0 : (kindAt K (st.done - 3) == SKind.blank) = false := by
      simp only [beq_eq_false_iff_ne, ne_eq]
      rw [hkg]
      intro hx
      exact SKind.noConfusion hx
    have hb1 : (kindAt K (st.done - 3 + 1) == SKind.blank) = true := by
      have hde : st.done - 3 + 1 = st.done - 2 := by omega
      rw [hde]
      simp only [beq_iff_eq]
      exact hkb
    have hs2 : (kindAt K (st.done - 3 + 1 + 1) == SKind.blank) = false := by
      have hde : st.done - 3 + 1 + 1 = st.done - 1 := by omega
      rw [hde]
      simp only [beq_eq_false_iff_ne, ne_eq]
      rw [hksp]
      intro hx
      exact SKind.noConfusion hx
    rw [hg0, hb1, hs2] at h8
    rw [h8]
    simp
  refine ⟨⟨?_, ?_, ?_, ?_, ?_, ?_, ?_, ?_, ?_⟩, ?_⟩
  · rw [ht, length_setStyle, length_setContent, length_setStyle, h1]
  · rw [htl, h2]
  · rw [hd]; omega
  · intro i hi
    rw [hpt]
    rcases eq_or_ne i (st.done - 3) with rfl | hne3
    · rw [if_pos rfl]
      exact fits_content_congr _ (spanAt st.text (st.done - 3)) _ rfl (h4 _ hi)
    · rw [if_neg hne3]
      rcases eq_or_ne i (st.done - 2) with rfl | hne2
      · rw [if_pos rfl, hkb]
        refine ⟨by simp, by simp⟩
      · rw [if_neg hne2]
        rcases eq_or_ne i (st.done - 1) with rfl | hne1
        · rw [if_pos rfl]
          exact fits_content_congr _ (spanAt st.text (st.done - 1)) _ rfl (h4 _ hi)
        · rw [if_neg hne1]
          exact h4 i hi
  · intro i hi hle hnb
    rw [hd] at hle
    rw [hpt]
    rcases eq_or_ne i (st.done - 3) with rfl | hne3
    · rw [if_pos rfl]
    · rw [if_neg hne3]
      rcases eq_or_ne i (st.done - 2) with rfl | hne2
      · exact absurd hkb hnb
      · rw [if_neg hne2]
        rcases eq_or_ne i (st.done - 1) with rfl | hne1
        · rw [if_pos rfl]
        · rw [if_neg hne1]
          exact h5 i hi (by omega) hnb
  · intro i hi hnb
    rw [hd] at hi
    rw [hpt, if_neg (by omega : ¬ i = st.done - 3), if_neg (by omega : ¬ i = st.done - 2),
      if_neg (by omega : ¬ i = st.done - 1)]
    exact h6 i (by omega) hnb
  · intro i hi hbk
    rw [hpt]
    rcases eq_or_ne i (st.done - 3) with rfl | hne3
    · exfalso
      rw [hkg] at hbk
      exact SKind.noConfusion hbk
    · rw [if_neg hne3]
      rcases eq_or_ne i (st.done - 2) with rfl | hne2
      · rw [if_pos rfl]
        exact h7 (st.done - 2) hi hkb
      · rw [if_neg hne2]
        rcases eq_or_ne i (st.done - 1) with rfl | hne1
        · exfalso
          rw [hksp] at hbk
          exact SKind.noConfusion hbk
        · rw [if_neg hne1]
          exact h7 i hi hbk
  · rw [hb, hd, hcount]
    simp
  · intro i hi hle hbk
    rw [hd] at hle
    have hine3 : i ≠ st.done - 3 := by
      intro he
      rw [he, hkg] at hbk
      exact SKind.noConfusion hbk
    have hine1 : i ≠ st.done - 1 := by
      intro he
      rw [he, hksp] at hbk
      exact SKind.noConfusion hbk
    rw [hpt, if_neg hine3]
    rcases eq_or_ne i (st.done - 2) with rfl | hne2
    · rw [if_pos rfl]
    · rw [if_neg hne2, if_neg hine1]
      exact h9 i hi (by omega) hbk
  · rw [hd]
    exact Or.inr hkg

theorem Inv_step (B : List Span) (K : List SKind) (st : TestState) (k : KeyEvent)
    (hB : InitOK B K) (h : ReachInv K st) : ReachInv K (test_key_handle B k st) := by
  have hs : shapeOK K := hB.2.1
  rcases k with ⟨code, ctl⟩
  cases ctl with
  | true =>
    simp only [test_key_handle, fetch]
    by_cases h0 : st.done = 0
    · rw [if_pos h0]
      exact h
    · rw [if_neg h0]
      by_cases hc : st.current_char = ' '
      · rw [if_pos hc]
        obtain ⟨hcore, hdisj⟩ := Inv_ctrl_case1 K st hs h hc
          { st with
            cursor_x := st.cursor_x - ((spanAt st.text (st.done - 1)).content.length + 1),
            text := setStyle (setContent st.text (st.done - 1) []) (st.done - 2) Style.todo,
            done := st.done - 2, blanks := st.blanks - 1 }
          rfl rfl rfl rfl
        exact Inv_ctrl_exit K hs _ hcore hdisj
      · rw [if_neg hc]
        by_cases hfe : (spanAt st.text (st.done - 1)).content = [' ']
        · rw [if_pos hfe]
          obtain ⟨hcore, hdisj⟩ := Inv_ctrl_case2 K st hs h hfe (Nat.pos_of_ne_zero h0)
            { st with
              cursor_x := st.cursor_x - ((spanAt st.text (st.done - 2)).content.length + 2),
              text := setStyle (setContent (setStyle st.text (st.done - 1) Style.todo)
                (st.done - 2) []) (st.done - 3) Style.todo,
              done := st.done - 3, blanks := st.blanks - 1 }
            rfl rfl rfl rfl
          exact Inv_ctrl_exit K hs _ hcore hdisj
        · rw [if_neg hfe]
          have hg : kindAt K st.done = SKind.glyph := kind_done_glyph K st h hc
          exact Inv_ctrl_exit K hs st h.1 (Or.inr hg)
  | false =>
    cases code with
    | char c =>
      simp only [test_key_handle, fetch]
      by_cases hcc : c = st.current_char
      · rw [if_pos hcc]
        exact Inv_advance B K st hB h Style.done (fun hx => Style.noConfusion hx)
          { st with
            text := setStyle st.text st.done Style.done, done := st.done + 1,
            correct := st.correct + 1, cursor_x := st.cursor_x + 1 }
          rfl rfl rfl rfl
      · rw [if_neg hcc]
        by_cases hsp : st.current_char = ' '
        · rw [if_pos hsp]
          by_cases hlt8 : (spanAt st.text (st.done - 1)).content.length < 8
          · rw [if_pos hlt8]
            exact Inv_wrong_space K st hs h hsp c (fun he => hcc (he.trans hsp.symm)) hlt8
              { st with
                text := setContent st.text (st.done - 1)
                  ((spanAt st.text (st.done - 1)).content ++ [c]),
                mistakes := st.mistakes + 1, cursor_x := st.cursor_x + 1 }
              rfl rfl rfl rfl rfl
          · rw [if_neg hlt8]
            exact Inv_fields K st
              { st with mistakes := st.mistakes + 1, cursor_x := st.cursor_x + 1 - 1 }
              h rfl rfl rfl rfl rfl
        · rw [if_neg hsp]
          exact Inv_advance B K st hB h Style.wrong (fun hx => Style.noConfusion hx)
            { st with
              text := setStyle st.text st.done Style.wrong, done := st.done + 1,
              mistakes := st.mistakes + 1, cursor_x := st.cursor_x + 1 }
            rfl rfl rfl rfl
    | backspace =>
      simp only [test_key_handle, fetch]
      by_cases h0 : 0 < st.done
      · rw [if_pos h0]
        by_cases hc : st.current_char = ' '
        · rw [if_pos hc]
          by_cases hemp : (spanAt st.text (st.done - 1)).content = []
          · rw [if_pos hemp]
            exact Inv_backspace_jump K st hs h hc hemp
              { st with
                cursor_x := st.cursor_x - 1, done := st.done - 2,
                blanks := st.blanks - 1,
                current_char := (spanAt st.text (st.done - 2)).content.headD ' ',
                text := setStyle st.text (st.done - 2) Style.todo }
              rfl rfl rfl rfl rfl
          · rw [if_neg hemp]
            exact Inv_backspace_pop K st hs h hc
              { st with
                cursor_x := st.cursor_x - 1,
                text := setContent st.text (st.done - 1)
                  ((spanAt st.text (st.done - 1)).content.dropLast) }
              rfl rfl rfl rfl rfl
        · rw [if_neg hc]
          exact Inv_backspace_simple K st hs h hc h0
            { st with
              cursor_x := st.cursor_x - 1, done := st.done - 1,
              current_char := (spanAt st.text (st.done - 1)).content.headD ' ',
              text := setStyle st.text (st.done - 1) Style.todo }
            rfl rfl rfl rfl rfl
      · rw [if_neg h0]
        exact h
    | tab =>
      simp only [test_key_handle]
      exact Inv_init B K hB
    | esc =>
      simp only [test_key_handle]
      exact Inv_fields K st { st with should_quit := true } h rfl rfl rfl rfl rfl
    | other =>
      simp only [test_key_handle]
      exact h

/-- Number of indices below n satisfying f and g — used to split a
count over two disjoint predicates. -/
theorem idxCount_add_disjoint (f g : Nat → Bool) (n : Nat)
    (h : ∀ i, ¬(f i = true ∧ g i = true)) :
    idxCount f n + idxCount g n = idxCount (fun i => f i || g i) n := by
  induction n with
  | zero => rfl
  | succ m ih =>
    rw [idxCount_succ, idxCount_succ, idxCount_succ]
    cases hf : f m <;> cases hg : g m <;> simp [hf, hg] <;> try omega
    exact absurd ⟨hf, hg⟩ (h m)

/-- Number of spans resolved with the given style: spans at non-slot
positions bearing the style.  Overflow slots are excluded because they
permanently carry the wrong color they are created with and are never
resolved as Incorrect; their resolution is what the blanks counter
tracks. -/
def resolvedCount (K : List SKind) (t : List Span) (s : Style) : Nat :=
  idxCount (fun i => decide ((spanAt t i).style = s) && !(kindAt K i == SKind.blank)) t.length

theorem Inv_count (K : List SKind) (st : TestState) (h : ReachInv K st) :
    st.done = resolvedCount K st.text Style.done + resolvedCount K st.text Style.wrong
      + st.blanks := by
  obtain ⟨⟨h1, h2, h3, h4, h5, h6, h7, h8, h9⟩, -⟩ := h
  have e1 := idxCount_add_disjoint
    (fun i => decide ((spanAt st.text i).style = Style.done) && !(kindAt K i == SKind.blank))
    (fun i => decide ((spanAt st.text i).style = Style.wrong) && !(kindAt K i == SKind.blank))
    st.text.length
    (by
      intro i hand
      obtain ⟨ha, hb⟩ := hand
      rw [Bool.and_eq_true, decide_eq_true_eq] at ha hb
      rw [ha.1] at hb
      exact Style.noConfusion hb.1)
  have e2 : idxCount
      (fun i => (decide ((spanAt st.text i).style = Style.done) && !(kindAt K i == SKind.blank))
        || (decide ((spanAt st.text i).style = Style.wrong) && !(kindAt K i == SKind.blank)))
      st.text.length =
      idxCount (fun i => !(decide ((spanAt st.text i).style = Style.todo))
        && !(kindAt K i == SKind.blank)) st.text.length := by
    apply idxCount_congr
    intro i _
    rcases hsty : (spanAt st.text i).style <;> simp [hsty]
  have e3 : idxCount (fun i => !(decide ((spanAt st.text i).style = Style.todo))
      && !(kindAt K i == SKind.blank)) st.text.length =
      idxCount (fun i => !(decide ((spanAt st.text i).style = Style.todo))
        && !(kindAt K i == SKind.blank)) st.done := by
    apply idxCount_eq_of_false_above _ _ _ (by omega)
    intro i hi1 hi2
    by_cases hbk : kindAt K i = SKind.blank
    · simp [hbk]
    · have hst := h5 i (by omega) hi1 hbk
      simp [hst]
  have e4 : idxCount (fun i => !(decide ((spanAt st.text i).style = Style.todo))
      && !(kindAt K i == SKind.blank)) st.done =
      idxCount (fun i => !(kindAt K i == SKind.blank)) st.done := by
    apply idxCount_congr
    intro i hi
    by_cases hbk : kindAt K i = SKind.blank
    · simp [hbk]
    · have hst := h6 i hi hbk
      simp [hbk, hst]
  have echain := ((e1.trans e2).trans e3).trans e4
  have hcompl := idxCount_add_compl (fun i => kindAt K i == SKind.blank) st.done
  rw [resolvedCount, resolvedCount]
  omega

theorem applyKeys_reach (B : List Span) (K : List SKind) (keys : List KeyEvent)
    (st : TestState) (hB : InitOK B K) (h : ReachInv K st) :
    ReachInv K (applyKeys B keys st) := by
  induction keys generalizing st with
  | nil => exact h
  | cons k ks ih =>
    show ReachInv K (applyKeys B ks (test_key_handle B k st))
    exact ih _ (Inv_step B K st k hB h)

/-- C2: for every keystroke sequence applied to a freshly constructed
test state over a well-formed buffer, after each keystroke the done
counter equals the number of spans resolved Correct plus the number
resolved Incorrect plus the blanks counter, and done stays at most
test_length (it is a Nat, so at least zero).  Resolution is read off
the styles at non-slot positions; the overflow slots are excluded
because they are born carrying the wrong color and are never restyled,
so their tint does not mean a resolved-Incorrect span.  Quantifying
over all key sequences covers every prefix, hence the state after each
keystroke. -/
theorem done_counts_invariant (B : List Span) (K : List SKind) (keys : List KeyEvent)
    (hB : InitOK B K) :
    (applyKeys B keys (initState B)).done =
      resolvedCount K (applyKeys B keys (initState B)).text Style.done +
      resolvedCount K (applyKeys B keys (initState B)).text Style.wrong +
      (applyKeys B keys (initState B)).blanks ∧
    (applyKeys B keys (initState B)).done ≤ (applyKeys B keys (initState B)).test_length := by
  have hreach : ReachInv K (applyKeys B keys (initState B)) :=
    applyKeys_reach B K keys (initState B) hB (Inv_init B K hB)
  refine ⟨Inv_count K _ hreach, ?_⟩
  have hlt := hreach.1.2.2.1
  have htl := hreach.1.2.1
  omega

attribute [ext] TestState Span

theorem setStyle_setStyle (t : List Span) (i : Nat) (s1 s2 : Style) :
    setStyle (setStyle t i s1) i s2 = setStyle t i s2 := by
  by_cases hl : i < t.length
  · rw [setStyle, setStyle, setStyle, spanAt_set_self _ _ _ hl, List.set_set]
  · simp [setStyle, List.set_eq_of_length_le (Nat.le_of_not_lt hl)]

theorem setStyle_self_eq (t : List Span) (i : Nat) (s : Style)
    (h : (spanAt t i).style = s) (hl : i < t.length) : setStyle t i s = t := by
  rw [setStyle]
  have : Span.mk (spanAt t i).content s = spanAt t i := by
    rw [← h]
  rw [this]
  exact set_spanAt_self t i hl

/-- C4 (amended): from any reachable state whose expected character is
an ordinary glyph (not the inter-word space) and which is not at the
very last position of the buffer, typing a wrong character and then
immediately pressing Backspace restores the machine state exactly,
except that mistakes has grown by one: the span is Pending again and
done, correct, blanks, the buffer and the cursor are back to their
prior values.  At the final glyph the round trip fails instead: the
wrong keystroke completes the test and restarts it, and Backspace
cannot undo the restart.  Moreover Backspace never changes the
mistakes counter on any state whatsoever, so the mistake is never
un-counted. -/
theorem wrong_then_backspace_restores (B : List Span) (K : List SKind) (st : TestState)
    (hB : InitOK B K) (h : ReachInv K st) (c : Char)
    (hcc : ¬ c = st.current_char) (hsp : ¬ st.current_char = ' ')
    (hnr : st.done + 1 < st.test_length) :
    test_key_handle B (KeyEvent.mk KeyCode.backspace false)
        (test_key_handle B (KeyEvent.mk (KeyCode.char c) false) st) =
      { st with mistakes := st.mistakes + 1 } ∧
    (∀ s : TestState,
      (test_key_handle B (KeyEvent.mk KeyCode.backspace false) s).mistakes = s.mistakes) := by
  have hs : shapeOK K := hB.2.1
  constructor
  · have hkd : kindAt K st.done = SKind.glyph := kind_done_glyph K st h hsp
    obtain ⟨⟨h1, h2, h3, h4, h5, h6, h7, h8, h9⟩, h10⟩ := h
    have hdt : st.done < st.text.length := h1 ▸ h3
    have hf0 := h4 st.done h3
    rw [hkd] at hf0
    obtain ⟨c0, hc0, hc0ne⟩ := fits_glyph_elim _ hf0
    have hc0cur : c0 = st.current_char := by
      rw [hc0] at h10
      simp only [List.head?_cons, Option.some.injEq] at h10
      exact h10
    have hd1K : st.done + 1 < K.length := by omega
    have htext : setStyle (setStyle st.text st.done Style.wrong) st.done Style.todo
        = st.text := by
      rw [setStyle_setStyle]
      exact setStyle_self_eq _ _ _
        (h5 st.done h3 (Nat.le_refl _) (by
          rw [hkd]
          intro hx
          exact SKind.noConfusion hx)) hdt
    have hcontd : (spanAt (setStyle st.text st.done Style.wrong) st.done).content = [c0] := by
      rw [content_setStyle, hc0]
    have e1 : test_key_handle B (KeyEvent.mk (KeyCode.char c) false) st
        = set_next_char_or_end B
          { st with
            text := setStyle st.text st.done Style.wrong, done := st.done + 1,
            mistakes := st.mistakes + 1, cursor_x := st.cursor_x + 1 } := by
      simp only [test_key_handle]
      rw [if_neg hcc, if_neg hsp]
    have e2 : set_next_char_or_end B
          { st with
            text := setStyle st.text st.done Style.wrong, done := st.done + 1,
            mistakes := st.mistakes + 1, cursor_x := st.cursor_x + 1 }
        = set_next_char_beware_blanks
          { st with
            text := setStyle st.text st.done Style.wrong, done := st.done + 1,
            mistakes := st.mistakes + 1, cursor_x := st.cursor_x + 1 } := by
      rw [set_next_char_or_end, if_pos hnr]
    have hsp1 : spanAt (setStyle st.text st.done Style.wrong) (st.done + 1)
        = spanAt st.text (st.done + 1) :=
      spanAt_setStyle_ne _ _ _ _ (by omega)
    rw [e1, e2]
    rcases shape_glyph_next K hs st.done hd1K hkd with hg | hbl
    · have hf1 := h4 (st.done + 1) hd1K
      rw [hg] at hf1
      obtain ⟨c2, hc2, hc2ne⟩ := fits_glyph_elim _ hf1
      have hget : get_next_char
          { st with
            text := setStyle st.text st.done Style.wrong, done := st.done + 1,
            mistakes := st.mistakes + 1, cursor_x := st.cursor_x + 1 } = some c2 := by
        rw [get_next_char]
        show (spanAt (setStyle st.text st.done Style.wrong) (st.done + 1)).content.head?
          = some c2
        rw [hsp1, hc2]
        rfl
      have e3 : set_next_char_beware_blanks
          { st with
            text := setStyle st.text st.done Style.wrong, done := st.done + 1,
            mistakes := st.mistakes + 1, cursor_x := st.cursor_x + 1 }
          = { st with
              text := setStyle st.text st.done Style.wrong, done := st.done + 1,
              mistakes := st.mistakes + 1, cursor_x := st.cursor_x + 1,
              current_char := c2 } := by
        rw [set_next_char_beware_blanks, hget]
      rw [e3]
      simp only [test_key_handle]
      rw [if_pos (Nat.succ_pos st.done)]
      rw [if_neg hc2ne]
      simp only [set_next_char, Nat.add_sub_cancel]
      rw [htext, hcontd]
      simp only [List.headD_cons, hc0cur]
      ext <;> simp
    · have hemp1 : (spanAt st.text (st.done + 1)).content = [] :=
        h9 (st.done + 1) hd1K (Nat.le_succ _) hbl
      have hget : get_next_char
          { st with
            text := setStyle st.text st.done Style.wrong, done := st.done + 1,
            mistakes := st.mistakes + 1, cursor_x := st.cursor_x + 1 } = none := by
        rw [get_next_char]
        show (spanAt (setStyle st.text st.done Style.wrong) (st.done + 1)).content.head?
          = none
        rw [hsp1, hemp1]
        rfl
      obtain ⟨-, -, hd2, hk2⟩ := shape_blank_struct K hs (st.done + 1) hd1K hbl
      have hf2 := h4 (st.done + 2) hd2
      rw [hk2] at hf2
      have hco2 : (spanAt st.text (st.done + 2)).content = [' '] := hf2
      have hsp2 : spanAt (setStyle st.text st.done Style.wrong) (st.done + 2)
          = spanAt st.text (st.done + 2) :=
        spanAt_setStyle_ne _ _ _ _ (by omega)
      have e3 : set_next_char_beware_blanks
          { st with
            text := setStyle st.text st.done Style.wrong, done := st.done + 1,
            mistakes := st.mistakes + 1, cursor_x := st.cursor_x + 1 }
          = { st with
              text := setStyle st.text st.done Style.wrong, done := st.done + 2,
              blanks := st.blanks + 1, mistakes := st.mistakes + 1,
              cursor_x := st.cursor_x + 1, current_char := ' ' } := by
        rw [set_next_char_beware_blanks, hget, set_next_char]
        show ({ st with
          text := setStyle st.text st.done Style.wrong, done := st.done + 2,
          blanks := st.blanks + 1, mistakes := st.mistakes + 1,
          cursor_x := st.cursor_x + 1,
          current_char :=
            (spanAt (setStyle st.text st.done Style.wrong) (st.done + 2)).content.headD ' ' }
          : TestState) = _
        rw [hsp2, hco2]
        rfl
      rw [e3]
      simp only [test_key_handle]
      rw [if_pos (by omega : 0 < st.done + 2)]
      rw [if_pos trivial]
      have hslot : (spanAt (setStyle st.text st.done Style.wrong) (st.done + 2 - 1)).content
          = [] := by
        have he21 : st.done + 2 - 1 = st.done + 1 := by omega
        rw [he21, hsp1, hemp1]
      rw [if_pos hslot]
      simp only [set_next_char, Nat.add_sub_cancel]
      rw [htext, hcontd]
      simp only [List.headD_cons, hc0cur]
      ext <;> simp
  · intro s
    simp only [test_key_handle]
    split_ifs <;> rfl

/-- C5: typing a wrong character while the expected character is the
inter-word space increments mistakes in either case; while the
previous overflow slot holds fewer than eight characters the wrong
character is appended to it (and the cursor advances); once the slot
holds eight or more characters the character is silently dropped: the
resulting state equals the old one except for the mistakes counter,
the provisional cursor advance having been reversed. -/
theorem overflow_cap (B : List Span) (st : TestState) (c : Char)
    (hc : st.current_char = ' ') (hcc : ¬ c = st.current_char) (h0 : 1 ≤ st.done) :
    (test_key_handle B (KeyEvent.mk (KeyCode.char c) false) st).mistakes = st.mistakes + 1 ∧
    ((spanAt st.text (st.done - 1)).content.length < 8 →
      test_key_handle B (KeyEvent.mk (KeyCode.char c) false) st =
        { st with
          mistakes := st.mistakes + 1, cursor_x := st.cursor_x + 1,
          text := setContent st.text (st.done - 1)
            ((spanAt st.text (st.done - 1)).content ++ [c]) }) ∧
    (8 ≤ (spanAt st.text (st.done - 1)).content.length →
      test_key_handle B (KeyEvent.mk (KeyCode.char c) false) st =
        { st with mistakes := st.mistakes + 1 }) := by
  have hred : test_key_handle B (KeyEvent.mk (KeyCode.char c) false) st =
      if (spanAt st.text (st.done - 1)).content.length < 8 then
        { st with
          mistakes := st.mistakes + 1, cursor_x := st.cursor_x + 1,
          text := setContent st.text (st.done - 1)
            ((spanAt st.text (st.done - 1)).content ++ [c]) }
      else { st with mistakes := st.mistakes + 1, cursor_x := st.cursor_x + 1 - 1 } := by
    simp only [test_key_handle, fetch]
    rw [if_neg hcc, if_pos hc]
  rw [hred]
  by_cases hlt : (spanAt st.text (st.done - 1)).content.length < 8
  · rw [if_pos hlt]
    refine ⟨rfl, fun _ => rfl, fun hge => absurd hlt (by omega)⟩
  · rw [if_neg hlt]
    refine ⟨rfl, fun hlt2 => absurd hlt2 hlt, fun _ => ?_⟩
    ext <;> simp

theorem ctrlWhile_counters (d : Nat) (s : TestState) :
    (ctrlWhile d s).correct = s.correct ∧ (ctrlWhile d s).mistakes = s.mistakes := by
  induction d generalizing s with
  | zero => exact ⟨rfl, rfl⟩
  | succ d ih =>
    rw [ctrlWhile]
    by_cases hsp : (spanAt s.text d).content ≠ [' ']
    · rw [if_pos hsp]
      exact ih _
    · rw [if_neg hsp]
      exact ⟨rfl, rfl⟩

/-- A two-glyph buffer used by concrete scenarios: the word "ab" with
the trailing slot and separator already popped by prep_test. -/
def Bab : List Span :=
  [Span.mk ['a'] Style.todo, Span.mk ['b'] Style.todo]

/-- The buffer for the two words "cat dog" as prep_test lays them out:
glyphs, the overflow slot and the separator space, then the second
word, the final slot/space pair popped. -/
def Bcat : List Span :=
  [Span.mk ['c'] Style.todo, Span.mk ['a'] Style.todo, Span.mk ['t'] Style.todo,
   Span.mk [] Style.wrong, Span.mk [' '] Style.todo,
   Span.mk ['d'] Style.todo, Span.mk ['o'] Style.todo, Span.mk ['g'] Style.todo]

/-- The kind map of Bcat. -/
def Kcat : List SKind :=
  [SKind.glyph, SKind.glyph, SKind.glyph, SKind.blank, SKind.space,
   SKind.glyph, SKind.glyph, SKind.glyph]

/-- The state reached from a fresh "cat dog" test after typing the six
characters cat dog correctly up to but not including the final g: the
cursor stands on the last glyph of the buffer. -/
def stLast : TestState :=
  applyKeys Bcat
    [KeyEvent.mk (KeyCode.char 'c') false, KeyEvent.mk (KeyCode.char 'a') false,
     KeyEvent.mk (KeyCode.char 't') false, KeyEvent.mk (KeyCode.char ' ') false,
     KeyEvent.mk (KeyCode.char 'd') false, KeyEvent.mk (KeyCode.char 'o') false]
    (initState Bcat)

/-- C4 counterexample: at the final glyph position the wrong-then-
Backspace round trip does not restore the state.  stLast is reachable
(whence well-formed) and sits on an ordinary glyph, one position short
of test_length; typing the wrong character x there drives done to
test_length, which completes the test and restarts it on a fresh
buffer, and the following Backspace is a no-op on the fresh state
(done is zero) — so the result is the fresh state, not the prior state
with one more mistake: done, styles and counters are all reset rather
than restored. -/
theorem final_glyph_wrong_backspace_no_restore :
    ReachInv Kcat stLast ∧
    stLast.done + 1 = stLast.test_length ∧
    ¬ stLast.current_char = ' ' ∧ ¬ 'x' = stLast.current_char ∧
    test_key_handle Bcat (KeyEvent.mk KeyCode.backspace false)
        (test_key_handle Bcat (KeyEvent.mk (KeyCode.char 'x') false) stLast)
      = initState Bcat ∧
    ¬ test_key_handle Bcat (KeyEvent.mk KeyCode.backspace false)
        (test_key_handle Bcat (KeyEvent.mk (KeyCode.char 'x') false) stLast)
      = { stLast with mistakes := stLast.mistakes + 1 } := by
  decide

/-- C9 counterexample: a keystroke transition can decrease the correct
counter: after one correct keystroke correct is one, and the Tab
keystroke (restart) resets it to zero.  This refutes the claim that no
keystroke transition ever decreases correct. -/
theorem tab_decreases_correct :
    (applyKeys Bab [KeyEvent.mk (KeyCode.char 'a') false] (initState Bab)).correct = 1 ∧
    (applyKeys Bab [KeyEvent.mk (KeyCode.char 'a') false, KeyEvent.mk KeyCode.tab false]
      (initState Bab)).correct = 0 := by
  decide

/-- C9 amended: Backspace and Control word-undo never change the
correct or mistakes counters on any state (only a restart, via Tab or
a test-completing keystroke, resets them); consequently retyping a
span correctly after undoing it increments correct a second time, so
correct can exceed the number of spans currently styled Correct, as
the concrete type/undo/retype run shows: correct is two while exactly
one span is styled Correct. -/
theorem undo_keeps_counters (B : List Span) :
    (∀ s : TestState,
      (test_key_handle B (KeyEvent.mk KeyCode.backspace false) s).correct = s.correct ∧
      (test_key_handle B (KeyEvent.mk KeyCode.backspace false) s).mistakes = s.mistakes) ∧
    (∀ (code : KeyCode) (s : TestState),
      (test_key_handle B (KeyEvent.mk code true) s).correct = s.correct ∧
      (test_key_handle B (KeyEvent.mk code true) s).mistakes = s.mistakes) ∧
    ((applyKeys Bab [KeyEvent.mk (KeyCode.char 'a') false,
        KeyEvent.mk (KeyCode.char 'h') true,
        KeyEvent.mk (KeyCode.char 'a') false] (initState Bab)).correct = 2 ∧
      countStyled (applyKeys Bab [KeyEvent.mk (KeyCode.char 'a') false,
        KeyEvent.mk (KeyCode.char 'h') true,
        KeyEvent.mk (KeyCode.char 'a') false] (initState Bab)).text Style.done = 1) := by
  refine ⟨?_, ?_, by decide⟩
  · intro s
    simp only [test_key_handle]
    split_ifs <;> exact ⟨rfl, rfl⟩
  · intro code s
    simp only [test_key_handle]
    by_cases h0 : s.done = 0
    · rw [if_pos h0]
      exact ⟨rfl, rfl⟩
    · rw [if_neg h0]
      split_ifs <;>
        exact ⟨(ctrlWhile_counters _ _).1, (ctrlWhile_counters _ _).2⟩

theorem done_counts_invariant_witness :
    InitOK Bcat Kcat ∧
    ((applyKeys Bcat [KeyEvent.mk (KeyCode.char 'c') false,
        KeyEvent.mk (KeyCode.char 'q') false, KeyEvent.mk KeyCode.backspace false,
        KeyEvent.mk (KeyCode.char 'a') false, KeyEvent.mk (KeyCode.char 't') false,
        KeyEvent.mk (KeyCode.char 'x') false] (initState Bcat)).done =
      resolvedCount Kcat (applyKeys Bcat [KeyEvent.mk (KeyCode.char 'c') false,
        KeyEvent.mk (KeyCode.char 'q') false, KeyEvent.mk KeyCode.backspace false,
        KeyEvent.mk (KeyCode.char 'a') false, KeyEvent.mk (KeyCode.char 't') false,
        KeyEvent.mk (KeyCode.char 'x') false] (initState Bcat)).text Style.done +
      resolvedCount Kcat (applyKeys Bcat [KeyEvent.mk (KeyCode.char 'c') false,
        KeyEvent.mk (KeyCode.char 'q') false, KeyEvent.mk KeyCode.backspace false,
        KeyEvent.mk (KeyCode.char 'a') false, KeyEvent.mk (KeyCode.char 't') false,
        KeyEvent.mk (KeyCode.char 'x') false] (initState Bcat)).text Style.wrong +
      (applyKeys Bcat [KeyEvent.mk (KeyCode.char 'c') false,
        KeyEvent.mk (KeyCode.char 'q') false, KeyEvent.mk KeyCode.backspace false,
        KeyEvent.mk (KeyCode.char 'a') false, KeyEvent.mk (KeyCode.char 't') false,
        KeyEvent.mk (KeyCode.char 'x') false] (initState Bcat)).blanks ∧
      (applyKeys Bcat [KeyEvent.mk (KeyCode.char 'c') false,
        KeyEvent.mk (KeyCode.char 'q') false, KeyEvent.mk KeyCode.backspace false,
        KeyEvent.mk (KeyCode.char 'a') false, KeyEvent.mk (KeyCode.char 't') false,
        KeyEvent.mk (KeyCode.char 'x') false] (initState Bcat)).done ≤
      (applyKeys Bcat [KeyEvent.mk (KeyCode.char 'c') false,
        KeyEvent.mk (KeyCode.char 'q') false, KeyEvent.mk KeyCode.backspace false,
        KeyEvent.mk (KeyCode.char 'a') false, KeyEvent.mk (KeyCode.char 't') false,
        KeyEvent.mk (KeyCode.char 'x') false] (initState Bcat)).test_length) :=
  ⟨by decide,
   done_counts_invariant Bcat Kcat [KeyEvent.mk (KeyCode.char 'c') false,
     KeyEvent.mk (KeyCode.char 'q') false, KeyEvent.mk KeyCode.backspace false,
     KeyEvent.mk (KeyCode.char 'a') false, KeyEvent.mk (KeyCode.char 't') false,
     KeyEvent.mk (KeyCode.char 'x') false] (by decide)⟩

theorem wrong_then_backspace_restores_witness :
    (InitOK Bcat Kcat ∧ ReachInv Kcat (initState Bcat) ∧
      ¬ 'x' = (initState Bcat).current_char ∧
      ¬ (initState Bcat).current_char = ' ' ∧
      (initState Bcat).done + 1 < (initState Bcat).test_length) ∧
    (test_key_handle Bcat (KeyEvent.mk KeyCode.backspace false)
        (test_key_handle Bcat (KeyEvent.mk (KeyCode.char 'x') false) (initState Bcat)) =
      { initState Bcat with mistakes := (initState Bcat).mistakes + 1 } ∧
    (∀ s : TestState,
      (test_key_handle Bcat (KeyEvent.mk KeyCode.backspace false) s).mistakes = s.mistakes)) :=
  ⟨⟨by decide, by decide, by decide, by decide, by decide⟩,
   wrong_then_backspace_restores Bcat Kcat (initState Bcat) (by decide) (by decide) 'x'
     (by decide) (by decide) (by decide)⟩

/-- A state at the inter-word space whose overflow slot already holds
eight characters, for the cap witness. -/
def stFull : TestState :=
  { text := [Span.mk ['a'] Style.done,
      Span.mk ['q','q','q','q','q','q','q','q'] Style.wrong,
      Span.mk [' '] Style.todo, Span.mk ['b'] Style.todo],
    done := 2, current_char := ' ', correct := 1, mistakes := 8, blanks := 1,
    test_length := 4, cursor_x := 10, should_quit := false }

theorem overflow_cap_witness :
    (stFull.current_char = ' ' ∧ ¬ 'z' = stFull.current_char ∧ 1 ≤ stFull.done) ∧
    ((test_key_handle [] (KeyEvent.mk (KeyCode.char 'z') false) stFull).mistakes
        = stFull.mistakes + 1 ∧
      ((spanAt stFull.text (stFull.done - 1)).content.length < 8 →
        test_key_handle [] (KeyEvent.mk (KeyCode.char 'z') false) stFull =
          { stFull with
            mistakes := stFull.mistakes + 1, cursor_x := stFull.cursor_x + 1,
            text := setContent stFull.text (stFull.done - 1)
              ((spanAt stFull.text (stFull.done - 1)).content ++ ['z']) }) ∧
      (8 ≤ (spanAt stFull.text (stFull.done - 1)).content.length →
        test_key_handle [] (KeyEvent.mk (KeyCode.char 'z') false) stFull =
          { stFull with mistakes := stFull.mistakes + 1 })) :=
  ⟨⟨by decide, by decide, by decide⟩,
   overflow_cap [] stFull 'z' (by decide) (by decide) (by decide)⟩

/-- Whether a draw is a Sentence-End variant. -/
def isEndDraw : Punctuation → Bool
  | Punctuation.End _ => true
  | _ => false

/-- A second formulation of the decoration step, named after the
amended capitalization claim: the word is capitalized exactly when its
own draw is a Sentence-End variant; no flag is carried between
words. -/
def prepStep_specCap (limit : Nat) (wrong todo : Style) (s : PrepState)
    (wp : List Char × Punctuation) : PrepState :=
  let word := wp.1
  let count1 := s.count + word.length + 1
  let closed := decide (count1 > limit)
  let test := if closed then s.test ++ [s.tmp0] else s.test
  let tmp0 := if closed then ([] : List Span) else s.tmp0
  let count := if closed then word.length else count1
  let be : Option Char × Option Char :=
    match wp.2 with
    | Punctuation.Null => (none, none)
    | Punctuation.End c => (none, some c)
    | Punctuation.Normal c => (none, some c)
    | Punctuation.Paired a z => (some a, some z)
    | Punctuation.DashLike _ => (none, none)
  let tmp1 := add_space_with_blank
    (renderWord tmp0 word be.1 be.2 (isEndDraw wp.2) todo) wrong todo
  PrepState.mk test tmp1 count false

/-- The decoration loop in the per-word formulation. -/
def prepLoop_specCap (limit : Nat) (wrong todo : Style)
    (l : List (List Char × Punctuation)) (s : PrepState) : PrepState :=
  l.foldl (prepStep_specCap limit wrong todo) s

/-- prep_test in the per-word capitalization formulation. -/
def prep_test_specCap (words : List (List Char)) (draws : List Punctuation)
    (limit : Nat) (wrong todo : Style) : List (List Span) :=
  let s := prepLoop_specCap limit wrong todo (words.zip draws) (PrepState.mk [] [] 0 false)
  let tmpPop := s.tmp0.dropLast.dropLast
  let all := s.test ++ [tmpPop]
  listSwap all 0 (all.length - 1)

theorem prepStep_eq_specCap (limit : Nat) (wrong todo : Style) (s : PrepState)
    (wp : List Char × Punctuation) (hcap : s.capitalize = false) :
    prepStep limit wrong todo s wp = prepStep_specCap limit wrong todo s wp := by
  rw [prepStep, prepStep_specCap]
  rcases wp with ⟨w, p⟩
  cases p <;> simp [hcap, isEndDraw]

theorem prepLoop_eq_specCap (limit : Nat) (wrong todo : Style) :
    ∀ (l : List (List Char × Punctuation)) (s : PrepState), s.capitalize = false →
    prepLoop limit wrong todo l s = prepLoop_specCap limit wrong todo l s := by
  intro l
  induction l with
  | nil => intro s _; rfl
  | cons p rest ih =>
    intro s hcap
    show prepLoop limit wrong todo rest (prepStep limit wrong todo s p)
      = prepLoop_specCap limit wrong todo rest (prepStep_specCap limit wrong todo s p)
    rw [prepStep_eq_specCap limit wrong todo s p hcap]
    exact ih _ rfl

/-- C1 counterexample: in the concrete run with the words cat and dog
where the draw for cat is Sentence-End with a period and the draw for
dog is Null, the uppercase transform lands on cat itself (its first
span reads an uppercase C) while the word immediately following keeps
its lowercase d.  This refutes the claim that the capitalization is
applied to the word following the Sentence-End draw and not to the
drawing word itself. -/
theorem capitalization_lands_on_drawing_word :
    (((prep_test [['c','a','t'], ['d','o','g']]
        [Punctuation.End '.', Punctuation.Null] 100 Style.wrong Style.todo).getD 0 []).getD 0
        (Span.mk [] Style.todo)).content = ['C'] ∧
    (((prep_test [['c','a','t'], ['d','o','g']]
        [Punctuation.End '.', Punctuation.Null] 100 Style.wrong Style.todo).getD 0 []).getD 6
        (Span.mk [] Style.todo)).content = ['d'] := by
  decide

/-- C1 amended: a Sentence-End draw capitalizes exactly the first
character of the word that drew it, not the following word: the flag
set by the End match arm is consumed in the same loop iteration and
reset before the next word, so the threaded-flag loop coincides with
the per-word formulation in which word W is capitalized exactly when
the draw of W itself is a Sentence-End variant; in either formulation
exactly one word is capitalized per Sentence-End draw, whatever the
other draws are. -/
theorem capitalize_self_per_draw (words : List (List Char)) (draws : List Punctuation)
    (limit : Nat) (wrong todo : Style) :
    prep_test words draws limit wrong todo
      = prep_test_specCap words draws limit wrong todo := by
  rw [prep_test, prep_test_specCap,
    prepLoop_eq_specCap limit wrong todo (words.zip draws) (PrepState.mk [] [] 0 false) rfl]

theorem listGetD_set_self (l : List (List Span)) (i : Nat) (a d : List Span)
    (h : i < l.length) : (l.set i a).getD i d = a := by
  simp [List.getD, List.getElem?_set_self', List.getElem?_eq_getElem h]

theorem listGetD_set_ne (l : List (List Span)) (i j : Nat) (a d : List Span)
    (h : i ≠ j) : (l.set i a).getD j d = l.getD j d := by
  simp [List.getD, List.getElem?_set_ne h]

theorem listGetD_snoc (l : List (List Span)) (x d : List Span) :
    (l ++ [x]).getD l.length d = x := by
  simp [List.getD, List.getElem?_append_right (Nat.le_refl l.length)]

theorem prepLoop_tmp0_trailing (limit : Nat) (wrong todo : Style)
    (l : List (List Char × Punctuation)) (s : PrepState) (hl : l ≠ []) :
    ∃ pre, (prepLoop limit wrong todo l s).tmp0
      = pre ++ [Span.mk [] wrong, Span.mk [' '] todo] := by
  rcases List.eq_nil_or_concat l with rfl | ⟨l2, p, rfl⟩
  · exact absurd rfl hl
  · rw [List.concat_eq_append, prepLoop, List.foldl_append]
    show ∃ pre, (prepStep limit wrong todo (List.foldl (prepStep limit wrong todo) s l2) p).tmp0
      = pre ++ [Span.mk [] wrong, Span.mk [' '] todo]
    rw [prepStep]
    exact ⟨_, rfl⟩

/-- C7: the first line in the final ordering of prep_test is the open
line accumulated last, with its last two spans removed; before that
removal the open line always ends with the empty blank-overflow slot
and the single-space separator appended by add_space_with_blank, so
the returned first line carries no trailing separator pair. -/
theorem first_line_truncated (words : List (List Char)) (draws : List Punctuation)
    (limit : Nat) (wrong todo : Style)
    (hw : words ≠ []) (hd : draws.length = words.length) :
    (prep_test words draws limit wrong todo).getD 0 [] =
      ((prepLoop limit wrong todo (words.zip draws)
        (PrepState.mk [] [] 0 false)).tmp0).dropLast.dropLast ∧
    ∃ pre, (prepLoop limit wrong todo (words.zip draws)
        (PrepState.mk [] [] 0 false)).tmp0
      = pre ++ [Span.mk [] wrong, Span.mk [' '] todo] := by
  constructor
  · rw [prep_test, listSwap]
    set s := prepLoop limit wrong todo (words.zip draws) (PrepState.mk [] [] 0 false) with hs
    set tmpPop := s.tmp0.dropLast.dropLast with htp
    set all := s.test ++ [tmpPop] with hall
    have hlen : all.length = s.test.length + 1 := by
      rw [hall, List.length_append, List.length_singleton]
    have hgetlast : all.getD (all.length - 1) [] = tmpPop := by
      rw [hlen]
      simp only [Nat.add_sub_cancel]
      rw [hall]
      exact listGetD_snoc _ _ _
    have hpos : 0 < all.length := by omega
    rcases Nat.eq_zero_or_pos (all.length - 1) with hone | hgt
    · rw [hone]
      rw [listGetD_set_self _ _ _ _ (by rw [List.length_set]; omega)]
      rw [hone] at hgetlast
      exact hgetlast
    · rw [listGetD_set_ne _ _ _ _ _ (by omega : all.length - 1 ≠ 0)]
      rw [listGetD_set_self _ _ _ _ hpos]
      exact hgetlast
  · apply prepLoop_tmp0_trailing
    intro hz
    have hz2 : (words.zip draws).length = 0 := by rw [hz]; rfl
    rw [List.length_zip, hd, Nat.min_self] at hz2
    exact hw (List.length_eq_zero.mp hz2)

theorem lineWidth_append (a b : List Span) :
    lineWidth (a ++ b) = lineWidth a + lineWidth b := by
  simp [lineWidth]

theorem lineWidth_map_single (body : List Char) (todo : Style) :
    lineWidth (body.map fun c => Span.mk [c] todo) = body.length := by
  induction body with
  | nil => rfl
  | cons c t ih =>
    simp [List.map_cons, lineWidth, List.sum_cons, List.length_cons] at ih ⊢
    omega

theorem lineWidth_asb (l : List Span) (wrong todo : Style) :
    lineWidth (add_space_with_blank l wrong todo) = lineWidth l + 1 := by
  simp [add_space_with_blank, lineWidth]

/-- The word body rendered inside renderWord: first character
uppercased when the capitalize flag is on. -/
def capWord (cap : Bool) (w : List Char) : List Char :=
  if cap then
    match w with
    | [] => []
    | c :: rest => c.toUpper :: rest
  else w

theorem capWord_length_le (cap : Bool) (w : List Char) :
    (capWord cap w).length ≤ w.length := by
  cases cap
  · simp [capWord]
  · cases w <;> simp [capWord]

theorem prepStep_null_eq (limit : Nat) (wrong todo : Style) (s : PrepState) (w : List Char) :
    prepStep limit wrong todo s (w, Punctuation.Null) =
      PrepState.mk
        (if s.count + w.length + 1 > limit then s.test ++ [s.tmp0] else s.test)
        (add_space_with_blank
          ((if s.count + w.length + 1 > limit then ([] : List Span) else s.tmp0)
            ++ (capWord s.capitalize w).map (fun c => Span.mk [c] todo)) wrong todo)
        (if s.count + w.length + 1 > limit then w.length else s.count + w.length + 1)
        false := by
  rw [prepStep]
  by_cases hc : s.count + w.length + 1 > limit
  · simp [hc, renderWord, capWord]
  · simp [hc, renderWord, capWord]

theorem prepStep_null_width (limit : Nat) (wrong todo : Style) (s : PrepState)
    (w : List Char) (hw : w.length + 1 ≤ limit)
    (h1 : ∀ line ∈ s.test, lineWidth line ≤ limit + 1)
    (h2 : lineWidth s.tmp0 ≤ s.count + 1)
    (h3 : s.count ≤ limit) :
    (∀ line ∈ (prepStep limit wrong todo s (w, Punctuation.Null)).test,
        lineWidth line ≤ limit + 1) ∧
    lineWidth (prepStep limit wrong todo s (w, Punctuation.Null)).tmp0
      ≤ (prepStep limit wrong todo s (w, Punctuation.Null)).count + 1 ∧
    (prepStep limit wrong todo s (w, Punctuation.Null)).count ≤ limit := by
  rw [prepStep_null_eq]
  have hbody := capWord_length_le s.capitalize w
  by_cases hc : s.count + w.length + 1 > limit
  · simp only [hc, if_true, if_pos]
    refine ⟨?_, ?_, by omega⟩
    · intro line hline
      rcases List.mem_append.mp hline with h | h
      · exact h1 line h
      · rcases List.mem_singleton.mp h with rfl
        omega
    · rw [lineWidth_asb, lineWidth_append, lineWidth_map_single]
      simp only [lineWidth, List.map_nil, List.sum_nil]
      omega
  · simp only [hc, if_false, if_neg]
    refine ⟨h1, ?_, by omega⟩
    rw [lineWidth_asb, lineWidth_append, lineWidth_map_single]
    omega

theorem prepLoop_null_width (limit : Nat) (wrong todo : Style)
    (l : List (List Char × Punctuation)) :
    ∀ s : PrepState,
    (∀ p ∈ l, p.2 = Punctuation.Null ∧ p.1.length + 1 ≤ limit) →
    (∀ line ∈ s.test, lineWidth line ≤ limit + 1) →
    lineWidth s.tmp0 ≤ s.count + 1 →
    s.count ≤ limit →
    (∀ line ∈ (prepLoop limit wrong todo l s).test, lineWidth line ≤ limit + 1) ∧
    lineWidth (prepLoop limit wrong todo l s).tmp0
      ≤ (prepLoop limit wrong todo l s).count + 1 ∧
    (prepLoop limit wrong todo l s).count ≤ limit := by
  induction l with
  | nil => intro s _ h1 h2 h3; exact ⟨h1, h2, h3⟩
  | cons p rest ih =>
    intro s hl h1 h2 h3
    obtain ⟨hp2, hp1⟩ := hl p (List.mem_cons_self p rest)
    have hstep := prepStep_null_width limit wrong todo s p.1 hp1 h1 h2 h3
    have hrw : (p.1, Punctuation.Null) = p := by
      rw [← hp2]
    rw [hrw] at hstep
    have hl2 : ∀ q ∈ rest, q.2 = Punctuation.Null ∧ q.1.length + 1 ≤ limit :=
      fun q hq => hl q (List.mem_cons_of_mem p hq)
    exact ih (prepStep limit wrong todo s p) hl2 hstep.1 hstep.2.1 hstep.2.2

theorem listGetD_mem (l : List (List Span)) (i : Nat) (h : i < l.length) :
    l.getD i [] ∈ l := by
  rw [List.getD_eq_getElem l [] h]
  exact List.getElem_mem h

theorem listGetD_append_left (l l2 : List (List Span)) (i : Nat) (h : i < l.length) :
    (l ++ l2).getD i [] = l.getD i [] := by
  simp [List.getD, List.getElem?_append_left h]

/-- C3: counterexample.  Lines other than the one holding the very last
word can exceed the configured limit: decoration glyphs drawn around a
word are not counted by the running width check (a paired draw makes a
closed line of width 8 under limit 6), and even with undecorated words
the count reset after an overflow lets a closed line reach limit + 1
(width 6 under limit 5, while the last word sits on line 0). -/
theorem layout_line_exceeds_limit :
    ((∀ w ∈ [['a','b'],['c','d'],['e','e']], w.length + 1 ≤ 6) ∧
     6 < lineWidth ((prep_test [['a','b'],['c','d'],['e','e']]
        [Punctuation.Paired '(' ')', Punctuation.Null, Punctuation.Null]
        6 Style.wrong Style.todo).getD 1 [])) ∧
    ((prep_test [['a','b'],['c','d'],['e','f'],['g','h']]
        (List.replicate 4 Punctuation.Null) 5 Style.wrong Style.todo).getD 0 []
      = [Span.mk ['g'] Style.todo, Span.mk ['h'] Style.todo] ∧
     5 < lineWidth ((prep_test [['a','b'],['c','d'],['e','f'],['g','h']]
        (List.replicate 4 Punctuation.Null) 5 Style.wrong Style.todo).getD 1 [])) := by
  decide

/-- C3 (amended): with undecorated draws and every word fitting the
limit, every line of prep_test other than the final-order first line
(the one holding the very last word) has visible width at most
limit + 1; the bound limit + 1 is tight, and decoration glyphs escape
the width check entirely. -/
theorem layout_width_bound (words : List (List Char)) (limit : Nat)
    (wrong todo : Style)
    (hwords : ∀ w ∈ words, w.length + 1 ≤ limit) :
    ∀ i, 1 ≤ i →
      lineWidth ((prep_test words (List.replicate words.length Punctuation.Null)
        limit wrong todo).getD i []) ≤ limit + 1 := by
  intro i hi
  have hl : ∀ p ∈ words.zip (List.replicate words.length Punctuation.Null),
      p.2 = Punctuation.Null ∧ p.1.length + 1 ≤ limit := by
    intro p hp
    obtain ⟨ha, hb⟩ := List.of_mem_zip hp
    exact ⟨List.eq_of_mem_replicate hb, hwords p.1 ha⟩
  have hinv := prepLoop_null_width limit wrong todo
    (words.zip (List.replicate words.length Punctuation.Null))
    (PrepState.mk [] [] 0 false) hl
    (by intro line h; exact absurd h (List.not_mem_nil line))
    (by simp [lineWidth]) (Nat.zero_le limit)
  simp only [prep_test]
  set S := prepLoop limit wrong todo
    (words.zip (List.replicate words.length Punctuation.Null))
    (PrepState.mk [] [] 0 false) with hS
  set tmpPop := S.tmp0.dropLast.dropLast with htp
  set all := S.test ++ [tmpPop] with hall
  have hlen : all.length = S.test.length + 1 := by
    rw [hall, List.length_append, List.length_singleton]
  rw [listSwap]
  rcases Nat.lt_or_ge i all.length with hin | hout
  · rcases Nat.lt_or_ge i (all.length - 1) with hmid | hlast
    · rw [listGetD_set_ne _ _ _ _ _ (by omega : all.length - 1 ≠ i)]
      rw [listGetD_set_ne _ _ _ _ _ (by omega : 0 ≠ i)]
      rw [hall, listGetD_append_left _ _ _ (by omega)]
      exact hinv.1 _ (listGetD_mem _ _ (by omega))
    · have hieq : i = all.length - 1 := by omega
      rw [hieq]
      rw [listGetD_set_self _ _ _ _ (by rw [List.length_set]; omega)]
      rw [hall, listGetD_append_left _ _ _ (by omega)]
      exact hinv.1 _ (listGetD_mem _ _ (by omega))
  · rw [List.getD_eq_default _ _ (by rw [List.length_set, List.length_set]; omega)]
    simp [lineWidth]

theorem layout_width_bound_witness :
    (∀ w ∈ [['a','b'],['c','d'],['e','f'],['g','h']], w.length + 1 ≤ 5) ∧ 1 ≤ 1 ∧
    lineWidth ((prep_test [['a','b'],['c','d'],['e','f'],['g','h']]
      (List.replicate [['a','b'],['c','d'],['e','f'],['g','h']].length Punctuation.Null)
      5 Style.wrong Style.todo).getD 1 []) ≤ 5 + 1 :=
  ⟨by decide, by decide,
    layout_width_bound [['a','b'],['c','d'],['e','f'],['g','h']] 5
      Style.wrong Style.todo (by decide) 1 (by decide)⟩

theorem first_line_truncated_witness :
    ([['c','a','t'], ['d','o','g']] : List (List Char)) ≠ [] ∧
    ([Punctuation.Null, Punctuation.Null] : List Punctuation).length
      = [['c','a','t'], ['d','o','g']].length ∧
    ((prep_test [['c','a','t'], ['d','o','g']] [Punctuation.Null, Punctuation.Null]
        100 Style.wrong Style.todo).getD 0 [] =
      ((prepLoop 100 Style.wrong Style.todo
        ([['c','a','t'], ['d','o','g']].zip [Punctuation.Null, Punctuation.Null])
        (PrepState.mk [] [] 0 false)).tmp0).dropLast.dropLast ∧
    ∃ pre, (prepLoop 100 Style.wrong Style.todo
        ([['c','a','t'], ['d','o','g']].zip [Punctuation.Null, Punctuation.Null])
        (PrepState.mk [] [] 0 false)).tmp0
      = pre ++ [Span.mk [] Style.wrong, Span.mk [' '] Style.todo]) :=
  ⟨by decide, by decide,
    first_line_truncated [['c','a','t'], ['d','o','g']] [Punctuation.Null, Punctuation.Null]
      100 Style.wrong Style.todo (by decide) (by decide)⟩

theorem wordGetD_snoc (l : List (List Char)) (x d : List Char) :
    (l ++ [x]).getD l.length d = x := by
  simp [List.getD, List.getElem?_append_right (Nat.le_refl l.length)]

theorem wordGetD_append_left (l l2 : List (List Char)) (i : Nat) (d : List Char)
    (h : i < l.length) : (l ++ l2).getD i d = l.getD i d := by
  simp [List.getD, List.getElem?_append_left h]

theorem extractGo_spec (lines : List (List Char)) (rest : List Nat) :
    ∀ (last cached : Nat) (container : List (List Char)),
    (last :: rest).Chain' (· ≤ ·) →
    last < lines.length →
    (∀ j ∈ rest, j < lines.length) →
    cached < container.length →
    container.getD cached [] = lines.getD last [] →
    extractGo lines rest last cached container (last + 1) =
      some (container ++ rest.map (fun j => lines.getD j []), rest.getLastD last + 1) := by
  induction rest with
  | nil =>
    intro last cached container _ _ _ _ _
    simp [extractGo, List.getLastD]
  | cons val rest2 ih =>
    intro last cached container hch hlast hb hcl hcc
    have hchtail : (val :: rest2).Chain' (· ≤ ·) := (List.chain'_cons.mp hch).2
    have hle : last ≤ val := (List.chain'_cons.mp hch).1
    have hval : val < lines.length := hb val (List.mem_cons_self val rest2)
    have hb2 : ∀ j ∈ rest2, j < lines.length :=
      fun j hj => hb j (List.mem_cons_of_mem val hj)
    rw [extractGo]
    by_cases he : val = last
    · rw [if_pos he]
      subst he
      have := ih val cached (container ++ [container.getD cached []]) hchtail hval hb2
        (by rw [List.length_append, List.length_singleton]; omega)
        (by rw [wordGetD_append_left _ _ _ _ hcl]; exact hcc)
      rw [this]
      rw [hcc, List.map_cons, List.getLastD_cons]
      simp
    · rw [if_neg he]
      have hlt : last < val := Nat.lt_of_le_of_ne hle (fun h => he h.symm)
      have hidx : last + 1 + (val - last - 1) = val := by omega
      have hget : lines.get? val = some (lines.getD val []) := by
        rw [List.get?_eq_getElem?, List.getElem?_eq_getElem hval,
          List.getD_eq_getElem lines [] hval]
      rw [hidx, hget]
      have hcur : last + 1 + (val - last) = val + 1 := by omega
      rw [hcur]
      show extractGo lines rest2 val container.length
          (container ++ [lines.getD val []]) (val + 1)
        = some (container ++ List.map (fun j => lines.getD j []) (val :: rest2),
            (val :: rest2).getLastD last + 1)
      rw [ih val container.length (container ++ [lines.getD val []]) hchtail hval hb2
        (by rw [List.length_append, List.length_singleton]; omega)
        (wordGetD_snoc container (lines.getD val []) [])]
      rw [List.map_cons, List.getLastD_cons]
      simp

/-- C6: for every nonempty non-decreasing in-bounds index sequence, the
extraction loop of get_shuffled_words succeeds and emits, for each
index in order, exactly the line at that index — so repeated indices
yield word content identical to their first occurrence (the clone path
never re-reads) — and it consumes from the line source exactly the
prefix up to the maximum (last) sampled index, one line past it and
never further. -/
theorem extraction_forward_pass (lines : List (List Char)) (idxs : List Nat)
    (hs : idxs.Chain' (· ≤ ·)) (hb : ∀ j ∈ idxs, j < lines.length)
    (hne : idxs ≠ []) :
    extract_words lines idxs =
      some (idxs.map (fun j => lines.getD j []), idxs.getLastD 0 + 1) := by
  match idxs, hne with
  | i0 :: rest, _ =>
    rw [extract_words]
    have hi0 : i0 < lines.length := hb i0 (List.mem_cons_self i0 rest)
    have hget : lines.get? i0 = some (lines.getD i0 []) := by
      rw [List.get?_eq_getElem?, List.getElem?_eq_getElem hi0,
        List.getD_eq_getElem lines [] hi0]
    have hb2 : ∀ j ∈ rest, j < lines.length :=
      fun j hj => hb j (List.mem_cons_of_mem i0 hj)
    show (match lines.get? i0 with
      | none => none
      | some w => extractGo lines rest i0 0 [w] (i0 + 1))
      = some (List.map (fun j => lines.getD j []) (i0 :: rest), (i0 :: rest).getLastD 0 + 1)
    rw [hget]
    show extractGo lines rest i0 0 [lines.getD i0 []] (i0 + 1)
      = some (List.map (fun j => lines.getD j []) (i0 :: rest), (i0 :: rest).getLastD 0 + 1)
    rw [extractGo_spec lines rest i0 0 [lines.getD i0 []] hs hi0 hb2
      (by simp) (by simp [List.getD])]
    rw [List.map_cons, List.getLastD_cons]
    rfl

theorem extraction_forward_pass_witness :
    ([1, 1, 3] : List Nat).Chain' (· ≤ ·) ∧
    (∀ j ∈ ([1, 1, 3] : List Nat), j < [['a'],['b'],['c'],['d']].length) ∧
    ([1, 1, 3] : List Nat) ≠ [] ∧
    extract_words [['a'],['b'],['c'],['d']] [1, 1, 3] =
      some (([1, 1, 3] : List Nat).map
        (fun j => [['a'],['b'],['c'],['d']].getD j []), ([1, 1, 3] : List Nat).getLastD 0 + 1) :=
  ⟨by simp [List.chain'_cons], by decide, by decide,
    extraction_forward_pass [['a'],['b'],['c'],['d']] [1, 1, 3]
      (by simp [List.chain'_cons]) (by decide) (by decide)⟩

/-- C8: the bounded line sampler (spec-modelled: src/utils/randorst.rs is
not among the provided sources) returns, for every requested length L
with 1 ≤ L ≤ B, exactly L indices, each strictly below the bound B,
sorted in non-decreasing order with duplicates permitted, whatever the
underlying raw random stream produces. -/
theorem sampler_contract (raw : Nat → Nat) (L B : Nat)
    (hL : 1 ≤ L) (hLB : L ≤ B) :
    (randorst_sample raw L B).length = L ∧
    (∀ x ∈ randorst_sample raw L B, x < B) ∧
    (randorst_sample raw L B).Sorted (· ≤ ·) := by
  have hB : 0 < B := Nat.lt_of_lt_of_le hL hLB
  refine ⟨?_, ?_, ?_⟩
  · rw [randorst_sample]
    rw [(List.perm_insertionSort (· ≤ ·) ((List.range L).map (fun i => raw i % B))).length_eq]
    rw [List.length_map, List.length_range]
  · intro x hx
    rw [randorst_sample] at hx
    rw [(List.perm_insertionSort (· ≤ ·) ((List.range L).map (fun i => raw i % B))).mem_iff] at hx
    obtain ⟨i, _, rfl⟩ := List.mem_map.mp hx
    exact Nat.mod_lt (raw i) hB
  · exact List.sorted_insertionSort (· ≤ ·) _

theorem sampler_contract_witness :
    1 ≤ 3 ∧ 3 ≤ 10 ∧
    ((randorst_sample (fun i => 7 * i + 5) 3 10).length = 3 ∧
     (∀ x ∈ randorst_sample (fun i => 7 * i + 5) 3 10, x < 10) ∧
     (randorst_sample (fun i => 7 * i + 5) 3 10).Sorted (· ≤ ·)) :=
  ⟨by decide, by decide,
    sampler_contract (fun i => 7 * i + 5) 3 10 (by decide) (by decide)⟩

set_option maxRecDepth 100000 in
/-- C10: over the whole u8 domain, decode_test_mod_bitflags returns
exactly the modifier set read off bits zero, one and two when no higher
bit is set (zero gives the empty set), and any set bit of index three
or above makes it hit the unreachable arm of TestMod.from_bitflag
(modelled none, a panic in the source). -/
theorem decode_bitflags_spec :
    ∀ b < 256, decode_test_mod_bitflags b =
      if b < 8 then
        some (TestModSet.mk (decide (b &&& 1 = 1)) (decide (b >>> 1 &&& 1 = 1))
          (decide (b >>> 2 &&& 1 = 1)))
      else none := by
  decide

theorem decode_bitflags_spec_witness :
    (5 < 256 ∧ decode_test_mod_bitflags 5 =
      if 5 < 8 then
        some (TestModSet.mk (decide (5 &&& 1 = 1)) (decide (5 >>> 1 &&& 1 = 1))
          (decide (5 >>> 2 &&& 1 = 1)))
      else none) ∧
    (9 < 256 ∧ decode_test_mod_bitflags 9 =
      if 9 < 8 then
        some (TestModSet.mk (decide (9 &&& 1 = 1)) (decide (9 >>> 1 &&& 1 = 1))
          (decide (9 >>> 2 &&& 1 = 1)))
      else none) :=
  ⟨⟨by decide, decode_bitflags_spec 5 (by decide)⟩,
   ⟨by decide, decode_bitflags_spec 9 (by decide)⟩⟩
